import Mathlib

/-!
Shallow embedding of the iCloud photo downloader ingestion pipeline
(repository files temp_solution.py and icloud_photo_downloader/core/downloader.py).

Conventions of the embedding:
* machine bytes are lists of natural numbers; the SHA-256 digest of a byte
  stream is modelled by the stream itself (an injective perfect digest, which
  preserves the one property every claim uses: equal bytes give equal digests
  and distinct bytes give distinct digests);
* Python dictionaries holding counters become association lists;
* the filesystem is an association list from path strings to file entries;
* fallible effects (network download, final move, video fetch) are driven by
  boolean oracles carried on each job, mirroring where the Python code can
  raise inside its try blocks;
* GPS coordinates are exact decimals held as integers in millionths of a
  degree; Python round(x, 2) becomes round half to even at two decimal
  places on that representation.
-/

namespace ICloud

/-- Character for a single decimal digit d, so 0 maps to the character 0. -/
def digitChar (d : Nat) : Char := Char.ofNat (48 + d)

/-- Inverse of digitChar on decimal digits. -/
def charDigit (c : Char) : Nat := c.toNat - 48

/-- Little-endian decimal digits of n, with explicit structural fuel. -/
def natDigitsAux : Nat → Nat → List Nat
  | 0, _ => []
  | fuel + 1, n => if n = 0 then [] else n % 10 :: natDigitsAux fuel (n / 10)

/-- Value of a little-endian decimal digit list. -/
def digitsVal : List Nat → Nat
  | [] => 0
  | d :: t => d + 10 * digitsVal t

/-- Decimal rendering of a natural number (model of Python str(n) / repr(n)). -/
def natToString (n : Nat) : String :=
  if n = 0 then "0" else ⟨((natDigitsAux n n).reverse.map digitChar)⟩

/-- Zero padding on the left to width k (model of Python format 0kd). -/
def padZeros (k : Nat) (s : String) : String :=
  ⟨List.replicate (k - s.data.length) '0' ++ s.data⟩

/-- Model of the Python format string 03d used by the collision suffix. -/
def fmt3 (n : Nat) : String := padZeros 3 (natToString n)

/-- Decimal parse of a digit string, the left inverse used for injectivity. -/
def parseNat (s : String) : Nat := digitsVal ((s.data.map charDigit).reverse)

theorem digitsVal_natDigitsAux (fuel : Nat) :
    ∀ n, n ≤ fuel → digitsVal (natDigitsAux fuel n) = n := by
  induction fuel with
  | zero => intro n hn; simp [natDigitsAux, digitsVal]; omega
  | succ f ih =>
    intro n hn
    by_cases h0 : n = 0
    · simp [natDigitsAux, h0, digitsVal]
    · have hdiv : n / 10 ≤ f := by
        have : n / 10 < n := Nat.div_lt_self (Nat.pos_of_ne_zero h0) (by omega)
        omega
      simp [natDigitsAux, h0, digitsVal, ih _ hdiv]
      omega

theorem natDigitsAux_lt_ten (fuel : Nat) :
    ∀ n d, d ∈ natDigitsAux fuel n → d < 10 := by
  induction fuel with
  | zero => intro n d hd; simp [natDigitsAux] at hd
  | succ f ih =>
    intro n d hd
    by_cases h0 : n = 0
    · simp [natDigitsAux, h0] at hd
    · rw [natDigitsAux, if_neg h0] at hd
      rcases List.mem_cons.mp hd with h | h
      · subst h; exact Nat.mod_lt _ (by omega)
      · exact ih _ _ h

theorem charDigit_digitChar {d : Nat} (hd : d < 10) :
    charDigit (digitChar d) = d := by
  revert hd
  revert d
  decide

theorem digitsVal_append (l₁ l₂ : List Nat) :
    digitsVal (l₁ ++ l₂) = digitsVal l₁ + 10 ^ l₁.length * digitsVal l₂ := by
  induction l₁ with
  | nil => simp [digitsVal]
  | cons d t ih => simp [digitsVal, ih, Nat.pow_succ]; ring

theorem digitsVal_replicate_zero (k : Nat) :
    digitsVal (List.replicate k 0) = 0 := by
  induction k with
  | zero => simp [digitsVal]
  | succ n ih => simp [List.replicate_succ, digitsVal, ih]

theorem parseNat_natToString (n : Nat) : parseNat (natToString n) = n := by
  by_cases h0 : n = 0
  · subst h0; decide
  · have hmap :
        ((natDigitsAux n n).reverse.map digitChar).map charDigit
          = (natDigitsAux n n).reverse := by
      rw [List.map_map]
      have hcong : ∀ d ∈ (natDigitsAux n n).reverse,
          (charDigit ∘ digitChar) d = id d := by
        intro d hd
        have : d < 10 := natDigitsAux_lt_ten n n d (List.mem_reverse.mp hd)
        simpa using charDigit_digitChar this
      rw [List.map_congr_left hcong, List.map_id]
    simp only [natToString, h0, if_false, parseNat, hmap, List.reverse_reverse]
    exact digitsVal_natDigitsAux n n le_rfl

theorem parseNat_fmt3 (n : Nat) : parseNat (fmt3 n) = n := by
  have hrep : ∀ k, (List.replicate k '0').map charDigit = List.replicate k 0 := by
    intro k; rw [List.map_replicate]; rfl
  simp only [fmt3, padZeros, parseNat] at *
  rw [List.map_append, hrep, List.reverse_append, List.reverse_replicate,
    digitsVal_append, digitsVal_replicate_zero]
  simpa [parseNat] using parseNat_natToString n

theorem fmt3_injective : Function.Injective fmt3 := by
  intro a b h
  have := parseNat_fmt3 a
  rw [h, parseNat_fmt3] at this
  omega

theorem natToString_ne_empty (n : Nat) : (natToString n).data ≠ [] := by
  by_cases h0 : n = 0
  · subst h0; decide
  · simp only [natToString, h0, if_false]
    rcases n with _ | m
    · omega
    · simp only [natDigitsAux]
      intro hcontra
      simp at hcontra

theorem fmt3_length (n : Nat) : 3 ≤ (fmt3 n).data.length := by
  have h := natToString_ne_empty n
  have hlen : 1 ≤ (natToString n).data.length := by
    cases hd : (natToString n).data with
    | nil => exact absurd hd h
    | cons a t => simp
  simp only [fmt3, padZeros, List.length_append, List.length_replicate]
  omega

theorem natToString_digits (n : Nat) :
    ∀ c ∈ (natToString n).data, ∃ d, d < 10 ∧ c = digitChar d := by
  by_cases h0 : n = 0
  · subst h0; intro c hc
    simp only [natToString, if_pos rfl] at hc
    refine ⟨0, by omega, ?_⟩
    have : c = '0' := by
      simpa using hc
    subst this; rfl
  · intro c hc
    simp only [natToString, h0, if_false] at hc
    have hc' : c ∈ (natDigitsAux n n).reverse.map digitChar := hc
    rcases List.mem_map.mp hc' with ⟨d, hd, hcd⟩
    exact ⟨d, natDigitsAux_lt_ten n n d (List.mem_reverse.mp hd), hcd.symm⟩

theorem digitChar_ne_slash {d : Nat} (hd : d < 10) : digitChar d ≠ '/' := by
  revert hd; revert d; decide

theorem digitChar_ne_underscore {d : Nat} (hd : d < 10) : digitChar d ≠ '_' := by
  revert hd; revert d; decide

theorem natToString_no_slash (n : Nat) : '/' ∉ (natToString n).data := by
  intro hmem
  rcases natToString_digits n _ hmem with ⟨d, hd, hc⟩
  exact digitChar_ne_slash hd hc.symm

theorem fmt3_no_slash (n : Nat) : '/' ∉ (fmt3 n).data := by
  intro hmem
  simp only [fmt3, padZeros, List.mem_append] at hmem
  rcases hmem with h | h
  · have := List.eq_of_mem_replicate h
    simp at this
  · exact natToString_no_slash n h

/-- A string is slash free when the path separator does not occur in it. -/
def noSlash (s : String) : Prop := '/' ∉ s.data

instance (s : String) : Decidable (noSlash s) := by
  unfold noSlash; infer_instance

theorem string_data_append (a b : String) : (a ++ b).data = a.data ++ b.data := rfl

theorem string_eq_of_data {a b : String} (h : a.data = b.data) : a = b := by
  cases a; cases b; simp only at h; subst h; rfl

theorem noSlash_append {a b : String} (ha : noSlash a) (hb : noSlash b) :
    noSlash (a ++ b) := by
  intro hmem
  rw [string_data_append, List.mem_append] at hmem
  rcases hmem with h | h
  · exact ha h
  · exact hb h

theorem noSlash_natToString (n : Nat) : noSlash (natToString n) :=
  natToString_no_slash n

theorem noSlash_fmt3 (n : Nat) : noSlash (fmt3 n) := fmt3_no_slash n

theorem noSlash_padZeros {k : Nat} {s : String} (hs : noSlash s) :
    noSlash (padZeros k s) := by
  intro hmem
  simp only [padZeros, List.mem_append] at hmem
  rcases hmem with h | h
  · have := List.eq_of_mem_replicate h
    simp at this
  · exact hs h

/-- Two digit zero padded rendering, the model of strftime fields like m, d, H. -/
def pad2 (n : Nat) : String := padZeros 2 (natToString n)

/-- Four digit zero padded rendering, the model of the strftime Y field. -/
def pad4 (n : Nat) : String := padZeros 4 (natToString n)

/-- Timestamp record standing for a datetime value of the remote asset. -/
structure Date where
  year : Nat
  month : Nat
  day : Nat
  hour : Nat
  minute : Nat
  second : Nat
deriving DecidableEq

/-- Model of created.strftime with the pattern Ymd_HMS used throughout the code. -/
def dateStr (d : Date) : String :=
  pad4 d.year ++ pad2 d.month ++ pad2 d.day ++ "_" ++
    pad2 d.hour ++ pad2 d.minute ++ pad2 d.second

theorem noSlash_pad2 (n : Nat) : noSlash (pad2 n) :=
  noSlash_padZeros (noSlash_natToString n)

theorem noSlash_pad4 (n : Nat) : noSlash (pad4 n) :=
  noSlash_padZeros (noSlash_natToString n)

theorem noSlash_underscore : noSlash "_" := by decide

theorem noSlash_replicate_zero (k : Nat) :
    noSlash (String.mk (List.replicate k '0')) := by
  intro hmem
  have := List.eq_of_mem_replicate hmem
  simp at this

theorem noSlash_dateStr (d : Date) : noSlash (dateStr d) := by
  unfold dateStr
  repeat' apply noSlash_append
  all_goals first
    | exact noSlash_pad4 _
    | exact noSlash_pad2 _
    | exact noSlash_underscore
    | exact noSlash_natToString _
    | exact noSlash_replicate_zero _

/-- Splitting a string at character index i, the common step of splitext. -/
def splitextAt (s : String) (i : Nat) : String × String :=
  if i = 0 then (s, "") else (⟨s.data.take i⟩, ⟨s.data.drop i⟩)

/-- Model of os.path.splitext: split at the last dot, no split when the dot
is the first character or absent. -/
def splitext (s : String) : String × String :=
  if '.' ∈ s.data then
    splitextAt s (s.data.length - 1 - s.data.reverse.findIdx (fun c => c == '.'))
  else (s, "")

theorem string_append_empty (s : String) : s ++ "" = s := by
  apply string_eq_of_data
  rw [string_data_append]
  simp

theorem noSlash_empty : noSlash "" := by decide

theorem splitextAt_append (s : String) (i : Nat) :
    (splitextAt s i).1 ++ (splitextAt s i).2 = s := by
  unfold splitextAt
  split
  · exact string_append_empty s
  · apply string_eq_of_data
    rw [string_data_append]
    exact List.take_append_drop _ _

theorem splitext_append (s : String) : (splitext s).1 ++ (splitext s).2 = s := by
  unfold splitext
  split
  · exact splitextAt_append _ _
  · exact string_append_empty s

theorem noSlash_splitext₁ {s : String} (hs : noSlash s) : noSlash (splitext s).1 := by
  unfold splitext splitextAt
  split
  · split
    · exact hs
    · intro hmem
      exact hs (List.mem_of_mem_take hmem)
  · exact hs

theorem noSlash_splitext₂ {s : String} (hs : noSlash s) : noSlash (splitext s).2 := by
  unfold splitext splitextAt
  split
  · split
    · exact noSlash_empty
    · intro hmem
      exact hs (List.mem_of_mem_drop hmem)
  · exact noSlash_empty

/-- Model of os.path.dirname: everything before the last slash. -/
def dirname (s : String) : String :=
  ⟨(((s.data.reverse).dropWhile (fun c => c != '/')).drop 1).reverse⟩

theorem dropWhile_append_of_all {p : Char → Bool} {l₁ l₂ : List Char}
    (h : ∀ x ∈ l₁, p x = true) :
    (l₁ ++ l₂).dropWhile p = l₂.dropWhile p := by
  induction l₁ with
  | nil => simp
  | cons a t ih =>
    have ha : p a = true := h a (by simp)
    simp only [List.cons_append, List.dropWhile_cons, ha, if_true]
    exact ih (fun x hx => h x (by simp [hx]))

theorem dirname_join {dir fname : String} (hf : noSlash fname) :
    dirname (dir ++ "/" ++ fname) = dir := by
  apply string_eq_of_data
  show ((((dir ++ "/" ++ fname).data.reverse).dropWhile
      (fun c => c != '/')).drop 1).reverse = dir.data
  have hdata : (dir ++ "/" ++ fname).data = dir.data ++ ['/'] ++ fname.data := by
    rw [string_data_append, string_data_append]
  rw [hdata]
  rw [List.reverse_append, List.reverse_append]
  have hall : ∀ x ∈ fname.data.reverse, (x != '/') = true := by
    intro x hx
    have : x ≠ '/' := by
      intro hcontra; subst hcontra; exact hf (List.mem_reverse.mp hx)
    simpa using this
  rw [dropWhile_append_of_all hall]
  simp [List.dropWhile]

/-! ### Filesystem model -/

/-- Byte streams of downloaded content. -/
abbrev Bytes := List Nat

/-- One file on disk: its bytes and the timestamp applied by os.utime, when any. -/
structure Entry where
  bytes : Bytes
  mtime : Option Date
deriving DecidableEq

/-- The local directory tree, an association list from paths to file entries. -/
abbrev FS := List (String × Entry)

/-- Model of os.path.exists restricted to files the run writes. -/
def fsExists (fs : FS) (p : String) : Bool := fs.any (fun kv => kv.1 == p)

/-- Reading a committed file back. -/
def fsLookup (fs : FS) (p : String) : Option Entry :=
  (fs.find? (fun kv => kv.1 == p)).map (fun kv => kv.2)

/-- Writing a file: replace an existing entry or add a new one. -/
def fsWrite (fs : FS) (p : String) (e : Entry) : FS :=
  if fsExists fs p then
    fs.map (fun kv => if kv.1 == p then (p, e) else kv)
  else (p, e) :: fs

/-- Model of os.utime on one path (preserve_original_timestamps). -/
def setMtime (fs : FS) (p : String) (d : Date) : FS :=
  fs.map (fun kv => if kv.1 == p then (kv.1, { kv.2 with mtime := some d }) else kv)

theorem fsExists_iff_mem_keys (fs : FS) (p : String) :
    fsExists fs p = true ↔ p ∈ fs.map Prod.fst := by
  unfold fsExists
  rw [List.any_eq_true]
  constructor
  · rintro ⟨kv, hkv, hb⟩
    exact List.mem_map.mpr ⟨kv, hkv, beq_iff_eq.mp hb⟩
  · intro h
    rcases List.mem_map.mp h with ⟨kv, hkv, hp⟩
    exact ⟨kv, hkv, beq_iff_eq.mpr hp⟩

theorem fsLookup_write_self (fs : FS) (p : String) (e : Entry)
    (hfree : fsExists fs p = false) :
    fsLookup (fsWrite fs p e) p = some e := by
  simp [fsWrite, hfree, fsLookup, List.find?]

theorem fsLookup_write_other (fs : FS) (p q : String) (e : Entry)
    (hfree : fsExists fs p = false) (hne : q ≠ p) :
    fsLookup (fsWrite fs p e) q = fsLookup fs q := by
  unfold fsWrite
  rw [hfree]
  simp only [Bool.false_eq_true, if_false]
  unfold fsLookup
  have hb : ((p, e).1 == q) = false :=
    beq_eq_false_iff_ne.mpr (fun hcontra => hne hcontra.symm)
  simp only [List.find?_cons, hb, Bool.false_eq_true, if_false]

/-! ### Collision free path assignment (PathPlanner of the spec)

temp_solution.py process_photo builds candidate names
base, name_001.ext, name_002.ext, ... until os.path.exists is false;
downloader.py builds base, base_1.ext, base_2.ext, ... with no zero padding. -/

/-- Candidate filename for attempt k of the temp_solution.py collision loop:
attempt 0 is the base filename, attempt k inserts the zero padded counter. -/
def candName (base : String) : Nat → String
  | 0 => base
  | k + 1 => (splitext base).1 ++ "_" ++ fmt3 (k + 1) ++ (splitext base).2

/-- Candidate full path for attempt k. -/
def cand (dir base : String) (k : Nat) : String := dir ++ "/" ++ candName base k

/-- Candidate full path for attempt k of the downloader.py collision loop
(_process_single_photo): the suffix counter is not zero padded. -/
def dlCand (filepath : String) (k : Nat) : String :=
  (splitext filepath).1 ++ "_" ++ natToString k ++ (splitext filepath).2

/-- The while loop searching the first free candidate, with explicit fuel. -/
def firstFreeIdx (fs : FS) (f : Nat → String) : Nat → Nat → Nat
  | i, 0 => i
  | i, fuel + 1 => if fsExists fs (f i) then firstFreeIdx fs f (i + 1) fuel else i

theorem string_append_data_inj {a b c d : String}
    (h : a ++ b = c ++ d) : a.data ++ b.data = c.data ++ d.data := by
  have := congrArg String.data h
  rwa [string_data_append, string_data_append] at this

theorem candName_injective (base : String) : Function.Injective (candName base) := by
  intro m n h
  match m, n with
  | 0, 0 => rfl
  | 0, n + 1 =>
    exfalso
    have hd := congrArg String.data h
    have hsplit := congrArg String.data (splitext_append base)
    rw [string_data_append] at hsplit
    simp only [candName, string_data_append] at hd
    have hlen := congrArg List.length hd
    simp only [List.length_append] at hlen
    have h3 := fmt3_length (n + 1)
    have hbase := congrArg List.length hsplit
    simp only [List.length_append] at hbase
    have hu : ("_" : String).data.length = 1 := rfl
    omega
  | m + 1, 0 =>
    exfalso
    have hd := congrArg List.length (congrArg String.data h)
    have hsplit := congrArg List.length (congrArg String.data (splitext_append base))
    rw [string_data_append] at hsplit
    simp only [candName, string_data_append, List.length_append] at hd
    simp only [List.length_append] at hsplit
    have h3 := fmt3_length (m + 1)
    omega
  | m + 1, n + 1 =>
    have hd := congrArg String.data h
    simp only [candName, string_data_append] at hd
    rw [List.append_assoc, List.append_assoc, List.append_assoc, List.append_assoc]
      at hd
    have h2 := List.append_cancel_left hd
    have h3 := List.append_cancel_left h2
    have h4 := List.append_left_injective _ h3
    have : fmt3 (m + 1) = fmt3 (n + 1) := string_eq_of_data h4
    have := fmt3_injective this
    omega

theorem cand_injective (dir base : String) : Function.Injective (cand dir base) := by
  intro m n h
  apply candName_injective base
  apply string_eq_of_data
  have hd := congrArg String.data h
  simp only [cand, string_data_append] at hd
  rw [List.append_assoc, List.append_assoc] at hd
  have := List.append_cancel_left hd
  exact List.append_cancel_left this

theorem exists_free_cand (fs : FS) (f : Nat → String)
    (hinj : Function.Injective f) :
    ∃ n, n ≤ fs.length ∧ fsExists fs (f n) = false := by
  by_contra hcontra
  push_neg at hcontra
  have hall : ∀ n ≤ fs.length, f n ∈ fs.map Prod.fst := by
    intro n hn
    have := hcontra n hn
    rcases hb : fsExists fs (f n) with _ | _
    · exact absurd hb this
    · exact (fsExists_iff_mem_keys fs (f n)).mp hb
  set l := (List.range (fs.length + 1)).map f with hl
  have hnodup : l.Nodup := (List.nodup_range _).map hinj
  have hsub : ∀ x ∈ l, x ∈ fs.map Prod.fst := by
    intro x hx
    rcases List.mem_map.mp hx with ⟨n, hn, hfn⟩
    rw [List.mem_range] at hn
    exact hfn ▸ hall n (by omega)
  have hcard₁ : l.toFinset.card = fs.length + 1 := by
    rw [List.toFinset_card_of_nodup hnodup]
    simp [hl]
  have hcard₂ : l.toFinset.card ≤ (fs.map Prod.fst).toFinset.card := by
    apply Finset.card_le_card
    intro x hx
    rw [List.mem_toFinset] at hx
    rw [List.mem_toFinset]
    exact hsub x hx
  have hcard₃ : (fs.map Prod.fst).toFinset.card ≤ fs.length := by
    calc (fs.map Prod.fst).toFinset.card ≤ (fs.map Prod.fst).length :=
          List.toFinset_card_le _
      _ = fs.length := by simp
  omega

theorem firstFreeIdx_spec (fs : FS) (f : Nat → String) :
    ∀ fuel i, (∃ j, i ≤ j ∧ j < i + fuel ∧ fsExists fs (f j) = false) →
      fsExists fs (f (firstFreeIdx fs f i fuel)) = false ∧
      (∀ k, i ≤ k → k < firstFreeIdx fs f i fuel → fsExists fs (f k) = true) ∧
      i ≤ firstFreeIdx fs f i fuel ∧ firstFreeIdx fs f i fuel < i + fuel := by
  intro fuel
  induction fuel with
  | zero =>
    intro i h
    rcases h with ⟨j, hij, hlt, _⟩
    omega
  | succ m ih =>
    intro i h
    rcases h with ⟨j, hij, hlt, hfree⟩
    cases hb : fsExists fs (f i) with
    | false =>
      have hval : firstFreeIdx fs f i (m + 1) = i := by
        simp [firstFreeIdx, hb]
      rw [hval]
      exact ⟨hb, fun k hk₁ hk₂ => by omega, le_rfl, by omega⟩
    | true =>
      have hval : firstFreeIdx fs f i (m + 1) = firstFreeIdx fs f (i + 1) m := by
        simp [firstFreeIdx, hb]
      have hjne : j ≠ i := by
        intro hcontra; subst hcontra; rw [hfree] at hb; exact Bool.noConfusion hb
      obtain ⟨h1, h2, h3, h4⟩ := ih (i + 1) ⟨j, by omega, by omega, hfree⟩
      rw [hval]
      refine ⟨h1, ?_, by omega, by omega⟩
      intro k hk₁ hk₂
      by_cases hk : k = i
      · subst hk; exact hb
      · exact h2 k (by omega) hk₂

/-- The index chosen by the temp_solution.py collision loop. -/
def chooseIdx (fs : FS) (dir base : String) : Nat :=
  firstFreeIdx fs (cand dir base) 0 (fs.length + 1)

theorem chooseIdx_spec (fs : FS) (dir base : String) :
    fsExists fs (cand dir base (chooseIdx fs dir base)) = false ∧
    (∀ k < chooseIdx fs dir base, fsExists fs (cand dir base k) = true) ∧
    chooseIdx fs dir base ≤ fs.length := by
  have hinj := cand_injective dir base
  rcases exists_free_cand fs (cand dir base) hinj with ⟨n, hn, hfree⟩
  obtain ⟨h1, h2, h3, h4⟩ := firstFreeIdx_spec fs (cand dir base) (fs.length + 1) 0
    ⟨n, by omega, by omega, hfree⟩
  refine ⟨h1, fun k hk => h2 k (by omega) hk, ?_⟩
  unfold chooseIdx
  omega

/-! ### Location buckets (get_location_name)

Coordinates are exact decimals in millionths of a degree; Python round(x, 2)
on such a value is round half to even at two decimal places, and the Python
float repr of the rounded value prints the integer part, a dot, and one or
two fractional digits with a trailing zero dropped. -/

/-- Exact GPS coordinate in millionths of a degree. -/
abbrev Micro := Int

/-- Round half to even from millionths of a degree to hundredths. -/
def roundHE2 (m : Micro) : Int :=
  let d : Int := 10000
  let f := Int.fdiv m d
  let r := m - f * d
  if 2 * r < d then f
  else if d < 2 * r then f + 1
  else if f % 2 = 0 then f else f + 1

/-- Python repr of a rounded coordinate, k being hundredths of a degree. -/
def fmtHundredths (k : Int) : String :=
  let sign := if k < 0 then "-" else ""
  let a := k.natAbs
  let ip := a / 100
  let fp := a % 100
  sign ++ natToString ip ++ "." ++
    (if fp = 0 then "0"
     else if fp % 10 = 0 then natToString (fp / 10)
     else if fp < 10 then "0" ++ natToString fp
     else natToString fp)

/-- The bucket name the code formats for resolved coordinates. -/
def latLonName (la lo : Micro) : String :=
  "Lat" ++ fmtHundredths (roundHE2 la) ++ "_Lon" ++ fmtHundredths (roundHE2 lo)

/-- A location dictionary with the four coordinate keys the code probes. -/
structure LocDict where
  latitude : Option Micro
  lat : Option Micro
  longitude : Option Micro
  lon : Option Micro
deriving DecidableEq

/-- The dynamic shapes the photo.location attribute can take: a dictionary
(with an optional nested location dictionary), a two element tuple or list,
or some other sequence. A falsy or absent attribute is modelled as none. -/
inductive PyLoc
  | dict (flat : LocDict) (nested : Option LocDict)
  | pair (la lo : Option Micro)
  | otherSeq
deriving DecidableEq

/-- Python x or y on optional coordinate values: a present zero is falsy,
so the fallback key is consulted. -/
def pyOr (a b : Option Micro) : Option Micro :=
  match a with
  | some v => if v = 0 then b else some v
  | none => b

/-! ### The asset data model -/

/-- One remote media item as the code reads it off the dynamic photo object.
The content field is the byte stream of the original variant; its digest is
modelled by the stream itself. locationEnc holds the decoded plist lat/lon
when the encrypted location record is present and parseable. -/
structure Asset where
  id : Option String
  filename : String
  created : Option Date
  location : Option PyLoc
  locationEnc : Option (Option Micro × Option Micro)
  content : Bytes
  versions : List (Option String)
  videoContent : Bytes
deriving DecidableEq

/-- The locationEnc fallback branch of get_location_name. -/
def locFromEnc (a : Asset) : String :=
  match a.locationEnc with
  | some (some la, some lo) => latLonName la lo
  | _ => "Unknown_Location"

/-- Model of get_location_name in temp_solution.py: probe the flat dictionary
keys with the falsy-coalescing or, then a two element tuple, then a nested
location dictionary, then the encrypted location record, else the
Unknown_Location bucket. -/
def get_location_name (a : Asset) : String :=
  match a.location with
  | some (.dict flat nested) =>
    match pyOr flat.latitude flat.lat, pyOr flat.longitude flat.lon with
    | some la, some lo => latLonName la lo
    | _, _ =>
      match nested with
      | some nd =>
        match pyOr nd.latitude nd.lat, pyOr nd.longitude nd.lon with
        | some la, some lo => latLonName la lo
        | _, _ => locFromEnc a
      | none => locFromEnc a
  | some (.pair (some la) (some lo)) => latLonName la lo
  | some (.pair _ _) => locFromEnc a
  | some .otherSeq => locFromEnc a
  | none => locFromEnc a

/-- ASCII lowercase of one character. -/
def lowerChar (c : Char) : Char :=
  if 65 ≤ c.toNat ∧ c.toNat ≤ 90 then Char.ofNat (c.toNat + 32) else c

/-- ASCII lowercase of a string (model of str.lower on extensions). -/
def strLower (s : String) : String := ⟨s.data.map lowerChar⟩

/-- Model of get_file_type_folder: fixed extension to category mapping. -/
def get_file_type_folder (filename : String) : String :=
  let ext := strLower (splitext filename).2
  if ext = ".heic" then "HEIC"
  else if ext = ".jpg" then "JPEG"
  else if ext = ".jpeg" then "JPEG"
  else if ext = ".png" then "PNG"
  else if ext = ".mov" then "Videos"
  else if ext = ".mp4" then "Videos"
  else if ext = ".m4v" then "Videos"
  else if ext = ".gif" then "GIF"
  else if ext = ".raw" then "RAW"
  else if ext = ".dng" then "RAW"
  else if ext = ".cr2" then "RAW"
  else if ext = ".arw" then "RAW"
  else "Others"

/-- Year leaf key: some year when created is present, the unknown bucket else. -/
def yearOf (a : Asset) : Option Nat := a.created.map Date.year

/-- The strftime string used in filenames, or the unknown_date literal. -/
def dateStrOf (a : Asset) : String :=
  match a.created with
  | some d => dateStr d
  | none => "unknown_date"

/-- The year path component, or the unknown_year literal. -/
def yearStrOf (a : Asset) : String :=
  match a.created with
  | some d => natToString d.year
  | none => "unknown_year"

/-- The content dedup key built at temp_solution.py line 345:
(photo id or None, date string, content digest, byte size). -/
abbrev DKey := Option String × String × Bytes × Nat

/-- dedupKey reads the raw id attribute: absent id stays none here; the
date_filename fallback exists only in get_unique_photo_id. -/
def dedupKey (a : Asset) : DKey := (a.id, dateStrOf a, a.content, a.content.length)

/-- Model of get_unique_photo_id in download_all_photos: the raw id when it
is truthy, else the date string joined to the filename. -/
def get_unique_photo_id (a : Asset) : String :=
  match a.id with
  | some pid => if pid = "" then dateStrOf a ++ "_" ++ a.filename else pid
  | none => dateStrOf a ++ "_" ++ a.filename

/-! ### Per photo processing (process_photo) -/

/-- Leaf addresses of the nested stats dictionaries. -/
inductive StatKey
  | album (name : String)
  | leaf (ptype ftype : String) (year : Option Nat)
deriving DecidableEq

/-- Increment one leaf counter, creating it at zero first if absent. -/
def bump : List (StatKey × Nat) → StatKey → List (StatKey × Nat)
  | [], k => [(k, 1)]
  | (k', v) :: t, k => if k' = k then (k', v + 1) :: t else (k', v) :: bump t k

/-- Sum over all stats leaves. -/
def sumStats (stats : List (StatKey × Nat)) : Nat :=
  (stats.map Prod.snd).sum

theorem sumStats_bump (stats : List (StatKey × Nat)) (k : StatKey) :
    sumStats (bump stats k) = sumStats stats + 1 := by
  induction stats with
  | nil => simp [bump, sumStats]
  | cons kv t ih =>
    obtain ⟨k', v⟩ := kv
    by_cases h : k' = k
    · simp [bump, h, sumStats]
      omega
    · simp only [bump, h, if_false, sumStats, List.map_cons, List.sum_cons]
      simp only [sumStats] at ih
      omega

/-- The enumeration source a job came from. -/
inductive Sect
  | personal
  | sharedWithMe
  | sharedAlbum (name : String)
deriving DecidableEq

/-- One unit of work: the asset plus the oracles saying whether the original
download, the final move and the companion video fetch succeed. -/
structure Job where
  a : Asset
  sect : Sect
  downloadOk : Bool
  commitOk : Bool
  videoOk : Bool
deriving DecidableEq

/-- Pipeline state mutated by process_photo: stats, the dedup key set, the
directory tree, the staged temporary files keyed by a fresh counter, and the
list of directories created so far. -/
structure PState where
  stats : List (StatKey × Nat)
  keys : List DKey
  fs : FS
  tmps : List (Nat × Bytes)
  ctr : Nat
  dirs : List String
deriving DecidableEq

/-- What process_photo reports back: the Python function returns a bare
success flag, but the model keeps the duplicate rejection and the exception
distinguishable for the statements; the orchestrator treats dup and exn
identically, exactly as the Python caller sees the same False for both. -/
inductive PPOut
  | ok (isLive : Bool) (path : String)
  | dup
  | exn
deriving DecidableEq

/-- A live photo has a version whose declared type is video. -/
def hasVideoVariant (a : Asset) : Bool :=
  a.versions.any (fun t => t == some "video")

/-- Model of handle_live_photo: place the companion under the Videos child of
the directory holding the committed original, named after the committed
basename with a mov extension, then apply the original timestamp. Any fault
is swallowed and reported as False. -/
def handle_live_photo (j : Job) (base_path filename : String) (ps : PState) :
    Bool × PState :=
  if hasVideoVariant j.a then
    let video_filename := (splitext filename).1 ++ ".mov"
    let videos_dir := dirname base_path ++ "/Videos"
    let video_path := videos_dir ++ "/" ++ video_filename
    let ps := { ps with dirs := ps.dirs ++ [videos_dir] }
    if j.videoOk then
      let ps := { ps with fs := fsWrite ps.fs video_path ⟨j.a.videoContent, none⟩ }
      let ps := match j.a.created with
        | some d => { ps with fs := setMtime ps.fs video_path d }
        | none => ps
      (true, ps)
    else (false, ps)
  else (false, ps)

/-- The directory choice of process_photo lines 314 to 331. -/
def planDir (base_dir photo_type : String) (album : Option String)
    (useLoc : Bool) (a : Asset) : String :=
  match album with
  | some album_name => base_dir ++ "/Shared_Albums/" ++ album_name
  | none =>
    if useLoc then
      base_dir ++ "/" ++ photo_type ++ "/" ++ get_location_name a ++ "/" ++ yearStrOf a
    else
      base_dir ++ "/" ++ photo_type ++ "/" ++ get_file_type_folder a.filename
        ++ "/" ++ yearStrOf a

/-- Directories the code creates with makedirs before the download. -/
def mkdirList (base_dir photo_type : String) (album : Option String)
    (useLoc : Bool) (a : Asset) : List String :=
  match album with
  | some album_name => [base_dir ++ "/Shared_Albums/" ++ album_name]
  | none =>
    if useLoc then
      [base_dir ++ "/" ++ photo_type ++ "/" ++ get_location_name a,
       planDir base_dir photo_type album useLoc a]
    else
      [base_dir ++ "/" ++ photo_type ++ "/" ++ get_file_type_folder a.filename,
       planDir base_dir photo_type album useLoc a]

/-- Model of process_photo in temp_solution.py: plan the directory, stage the
bytes to a temporary file, build the dedup key, reject a seen key (deleting
the staged file), else admit the key, resolve filename collisions, move the
staged file into place, apply the timestamp, run the live photo handler, and
bump exactly one stats leaf. The downloadOk and commitOk oracles mark the
points where the Python code can raise; the raised path returns exn with all
mutations made so far kept, as the Python except clause does. -/
def process_photo (j : Job) (base_dir photo_type : String) (album : Option String)
    (useLoc : Bool) (ps : PState) : PPOut × PState :=
  let a := j.a
  let file_type := get_file_type_folder a.filename
  let photo_dir := planDir base_dir photo_type album useLoc a
  let ps := { ps with dirs := ps.dirs ++ mkdirList base_dir photo_type album useLoc a }
  let base_filename := dateStrOf a ++ "_" ++ a.filename
  if j.downloadOk then
    let tmpId := ps.ctr
    let ps := { ps with tmps := (tmpId, a.content) :: ps.tmps, ctr := ps.ctr + 1 }
    let ukey := dedupKey a
    if ukey ∈ ps.keys then
      (.dup, { ps with tmps := ps.tmps.eraseP (fun t => t.1 == tmpId) })
    else
      let ps := { ps with keys := ukey :: ps.keys }
      let idx := chooseIdx ps.fs photo_dir base_filename
      let filepath := cand photo_dir base_filename idx
      if j.commitOk then
        let ps := { ps with
          fs := fsWrite ps.fs filepath ⟨a.content, none⟩,
          tmps := ps.tmps.eraseP (fun t => t.1 == tmpId) }
        let ps := match a.created with
          | some d => { ps with fs := setMtime ps.fs filepath d }
          | none => ps
        let hl := handle_live_photo j filepath (candName base_filename idx) ps
        let ps := hl.2
        let sk := match album with
          | some album_name => StatKey.album album_name
          | none => StatKey.leaf photo_type file_type (yearOf a)
        let ps := { ps with stats := bump ps.stats sk }
        (.ok hl.1 filepath, ps)
      else
        (.exn, ps)
  else
    (.exn, { ps with tmps := (ps.ctr, []) :: ps.tmps, ctr := ps.ctr + 1 })

/-! ### The run orchestrator (download_all_photos) -/

/-- Call site classification of the per asset log_entry calls. -/
inductive LKind
  | process
  | success
  | liveInfo
  | skipById
  | error
deriving DecidableEq

/-- The level string each call site passes to log_entry. -/
def levelOf : LKind → String
  | .process => "PROCESS"
  | .success => "SUCCESS"
  | .liveInfo => "INFO"
  | .skipById => "INFO"
  | .error => "ERROR"

/-- Outcome entries are the ones the claims count: the committed, duplicate
rejected and failed cases. -/
def isOutcome : LKind → Bool
  | .success | .skipById | .error => true
  | _ => false

/-- Per job outcome instrumentation of the model. -/
inductive JOut
  | committed (path : String)
  | rejectedById
  | rejectedByKey
  | failed
deriving DecidableEq

def isCommitted : JOut → Bool
  | .committed _ => true
  | _ => false

def isRejected : JOut → Bool
  | .rejectedById => true
  | .rejectedByKey => true
  | _ => false

/-- The outcome log entry written for one job outcome: the uid precheck skip
gets the SKIP line, a commit gets the SUCCESS line, and both the content key
rejection and the exception fall into the same ERROR line because
process_photo reports both as a bare False. -/
def outcomeKind : JOut → LKind
  | .committed _ => .success
  | .rejectedById => .skipById
  | .rejectedByKey => .error
  | .failed => .error

/-- Run wide state of download_all_photos. -/
structure RState where
  ps : PState
  ids : List String
  log : List LKind
  dl : Nat
  errs : Nat
  skp : Nat
deriving DecidableEq

/-- photo_type and album_name arguments passed for each enumeration source. -/
def sectArgs : Sect → String × Option String
  | .personal => ("Personal", none)
  | .sharedWithMe => ("Shared_With_Me", none)
  | .sharedAlbum n => ("Shared_Albums", some n)

/-- One iteration of the per photo loop bodies of download_all_photos:
uid precheck, process log line, process_photo, then bookkeeping from the
returned success flag. -/
def runStep (base : String) (useLoc : Bool) (st : RState) (j : Job) :
    RState × JOut :=
  let uid := get_unique_photo_id j.a
  if uid ∈ st.ids then
    ({ st with skp := st.skp + 1, log := st.log ++ [LKind.skipById] }, JOut.rejectedById)
  else
    let args := sectArgs j.sect
    let st := { st with log := st.log ++ [LKind.process] }
    match process_photo j base args.1 args.2 useLoc st.ps with
    | (.ok isLive p, ps') =>
      ({ st with
          ps := ps'
          ids := st.ids ++ [uid]
          dl := st.dl + 1
          log := st.log ++ [LKind.success] ++ (if isLive then [LKind.liveInfo] else []) },
        JOut.committed p)
    | (.dup, ps') =>
      ({ st with ps := ps', errs := st.errs + 1, log := st.log ++ [LKind.error] },
        .rejectedByKey)
    | (.exn, ps') =>
      ({ st with ps := ps', errs := st.errs + 1, log := st.log ++ [LKind.error] },
        .failed)

/-- The whole run over the concatenated enumeration of every selected
source, sharing one dedup index and one stats record, returning the final
state and the outcome of every job in order. -/
def runO (base : String) (useLoc : Bool) : List Job → RState → RState × List JOut
  | [], st => (st, [])
  | j :: js, st =>
    let so := runStep base useLoc st j
    let rest := runO base useLoc js so.1
    (rest.1, so.2 :: rest.2)

/-- The empty starting state of a run: empty dedup index, empty stats, no
files, no log. -/
def initR : RState := ⟨⟨[], [], [], [], 0, []⟩, [], [], 0, 0, 0⟩

/-! ### Characterization lemmas for process_photo -/

/-- The filename the code moves the staged bytes to. -/
def baseFilename (a : Asset) : String := dateStrOf a ++ "_" ++ a.filename

/-- The collision counter the while loop settles on. -/
def commitIdx (j : Job) (base ty : String) (album : Option String)
    (useLoc : Bool) (ps : PState) : Nat :=
  chooseIdx ps.fs (planDir base ty album useLoc j.a) (baseFilename j.a)

/-- The final committed path of a successful process_photo call. -/
def commitPath (j : Job) (base ty : String) (album : Option String)
    (useLoc : Bool) (ps : PState) : String :=
  cand (planDir base ty album useLoc j.a) (baseFilename j.a)
    (commitIdx j base ty album useLoc ps)

/-- The final committed filename (without directory). -/
def commitName (j : Job) (base ty : String) (album : Option String)
    (useLoc : Bool) (ps : PState) : String :=
  candName (baseFilename j.a) (commitIdx j base ty album useLoc ps)

/-- The stats leaf a successful call increments. -/
def skOf (j : Job) (ty : String) (album : Option String) : StatKey :=
  match album with
  | some n => StatKey.album n
  | none => StatKey.leaf ty (get_file_type_folder j.a.filename) (yearOf j.a)

/-- State after the staged file is moved into place and timestamped, before
the live photo handler and the stats bump run. -/
def preCommit (j : Job) (base ty : String) (album : Option String)
    (useLoc : Bool) (ps : PState) : PState :=
  { ps with
      dirs := ps.dirs ++ mkdirList base ty album useLoc j.a
      ctr := ps.ctr + 1
      keys := dedupKey j.a :: ps.keys
      fs :=
        match j.a.created with
        | some d =>
          setMtime (fsWrite ps.fs (commitPath j base ty album useLoc ps)
            ⟨j.a.content, none⟩) (commitPath j base ty album useLoc ps) d
        | none =>
          fsWrite ps.fs (commitPath j base ty album useLoc ps)
            ⟨j.a.content, none⟩ }

theorem eraseP_cons_self (t : List (Nat × Bytes)) (i : Nat) (b : Bytes) :
    List.eraseP (fun kv => kv.1 == i) ((i, b) :: t) = t := by
  rw [List.eraseP_cons]
  simp

theorem process_photo_dup (j : Job) (base ty : String) (album : Option String)
    (useLoc : Bool) (ps : PState)
    (hdl : j.downloadOk = true) (hk : dedupKey j.a ∈ ps.keys) :
    process_photo j base ty album useLoc ps =
      (PPOut.dup,
        { ps with
            dirs := ps.dirs ++ mkdirList base ty album useLoc j.a
            ctr := ps.ctr + 1 }) := by
  simp only [process_photo, hdl, if_true, hk, eraseP_cons_self]

theorem process_photo_dlfail (j : Job) (base ty : String) (album : Option String)
    (useLoc : Bool) (ps : PState) (hdl : j.downloadOk = false) :
    process_photo j base ty album useLoc ps =
      (PPOut.exn,
        { ps with
            dirs := ps.dirs ++ mkdirList base ty album useLoc j.a
            tmps := (ps.ctr, []) :: ps.tmps
            ctr := ps.ctr + 1 }) := by
  simp only [process_photo, hdl, Bool.false_eq_true, if_false]

theorem process_photo_commitfail (j : Job) (base ty : String)
    (album : Option String) (useLoc : Bool) (ps : PState)
    (hdl : j.downloadOk = true) (hk : dedupKey j.a ∉ ps.keys)
    (hc : j.commitOk = false) :
    process_photo j base ty album useLoc ps =
      (PPOut.exn,
        { ps with
            dirs := ps.dirs ++ mkdirList base ty album useLoc j.a
            tmps := (ps.ctr, j.a.content) :: ps.tmps
            ctr := ps.ctr + 1
            keys := dedupKey j.a :: ps.keys }) := by
  simp only [process_photo, hdl, if_true, hk, if_false, hc, Bool.false_eq_true]

theorem process_photo_commit (j : Job) (base ty : String)
    (album : Option String) (useLoc : Bool) (ps : PState)
    (hdl : j.downloadOk = true) (hk : dedupKey j.a ∉ ps.keys)
    (hc : j.commitOk = true) :
    process_photo j base ty album useLoc ps =
      (PPOut.ok
          (handle_live_photo j (commitPath j base ty album useLoc ps)
            (commitName j base ty album useLoc ps)
            (preCommit j base ty album useLoc ps)).1
          (commitPath j base ty album useLoc ps),
        { (handle_live_photo j (commitPath j base ty album useLoc ps)
            (commitName j base ty album useLoc ps)
            (preCommit j base ty album useLoc ps)).2 with
            stats :=
              bump (handle_live_photo j (commitPath j base ty album useLoc ps)
                (commitName j base ty album useLoc ps)
                (preCommit j base ty album useLoc ps)).2.stats
                (skOf j ty album) }) := by
  cases hcr : j.a.created with
  | none =>
    simp only [process_photo, hdl, if_true, hk, if_false, hc, eraseP_cons_self,
      preCommit, commitPath, commitName, commitIdx, skOf, baseFilename, hcr]
  | some d =>
    simp only [process_photo, hdl, if_true, hk, if_false, hc, eraseP_cons_self,
      preCommit, commitPath, commitName, commitIdx, skOf, baseFilename, hcr]

theorem handle_live_photo_proj (j : Job) (p f : String) (ps : PState) :
    (handle_live_photo j p f ps).2.stats = ps.stats ∧
    (handle_live_photo j p f ps).2.keys = ps.keys ∧
    (handle_live_photo j p f ps).2.tmps = ps.tmps ∧
    (handle_live_photo j p f ps).2.ctr = ps.ctr := by
  unfold handle_live_photo
  split
  · split
    · cases j.a.created <;> simp
    · simp
  · simp

theorem bool_eq_false_of_ne_true {b : Bool} (h : ¬ b = true) : b = false :=
  Bool.not_eq_true b ▸ h

theorem process_photo_keys_mono (j : Job) (base ty : String)
    (album : Option String) (useLoc : Bool) (ps : PState) (k : DKey)
    (hk : k ∈ ps.keys) :
    k ∈ (process_photo j base ty album useLoc ps).2.keys := by
  by_cases hdl : j.downloadOk = true
  · by_cases hmem : dedupKey j.a ∈ ps.keys
    · rw [process_photo_dup j base ty album useLoc ps hdl hmem]
      exact hk
    · by_cases hc : j.commitOk = true
      · rw [process_photo_commit j base ty album useLoc ps hdl hmem hc]
        have hkeys := (handle_live_photo_proj j
          (commitPath j base ty album useLoc ps)
          (commitName j base ty album useLoc ps)
          (preCommit j base ty album useLoc ps)).2.1
        show k ∈ (handle_live_photo j _ _ _).2.keys
        rw [hkeys]
        exact List.mem_cons_of_mem _ hk
      · rw [process_photo_commitfail j base ty album useLoc ps hdl hmem
          (bool_eq_false_of_ne_true hc)]
        exact List.mem_cons_of_mem _ hk
  · rw [process_photo_dlfail j base ty album useLoc ps
      (bool_eq_false_of_ne_true hdl)]
    exact hk

theorem process_photo_ok_inv (j : Job) (base ty : String)
    (album : Option String) (useLoc : Bool) (ps : PState) {b : Bool} {p : String}
    (h : (process_photo j base ty album useLoc ps).1 = PPOut.ok b p) :
    j.downloadOk = true ∧ dedupKey j.a ∉ ps.keys ∧ j.commitOk = true := by
  by_cases hdl : j.downloadOk = true
  · by_cases hmem : dedupKey j.a ∈ ps.keys
    · rw [process_photo_dup j base ty album useLoc ps hdl hmem] at h
      exact absurd h (by simp)
    · by_cases hc : j.commitOk = true
      · exact ⟨hdl, hmem, hc⟩
      · rw [process_photo_commitfail j base ty album useLoc ps hdl hmem
          (bool_eq_false_of_ne_true hc)] at h
        exact absurd h (by simp)
  · rw [process_photo_dlfail j base ty album useLoc ps
      (bool_eq_false_of_ne_true hdl)] at h
    exact absurd h (by simp)

theorem process_photo_keys_of_ok (j : Job) (base ty : String)
    (album : Option String) (useLoc : Bool) (ps : PState) {b : Bool} {p : String}
    (h : (process_photo j base ty album useLoc ps).1 = PPOut.ok b p) :
    (process_photo j base ty album useLoc ps).2.keys = dedupKey j.a :: ps.keys := by
  obtain ⟨hdl, hmem, hc⟩ := process_photo_ok_inv j base ty album useLoc ps h
  rw [process_photo_commit j base ty album useLoc ps hdl hmem hc]
  have hkeys := (handle_live_photo_proj j
    (commitPath j base ty album useLoc ps)
    (commitName j base ty album useLoc ps)
    (preCommit j base ty album useLoc ps)).2.1
  show (handle_live_photo j _ _ _).2.keys = _
  rw [hkeys]
  simp [preCommit]

/-! ### Characterization lemmas for runStep and runO -/

theorem runStep_pre (base : String) (useLoc : Bool) (st : RState) (j : Job)
    (h : get_unique_photo_id j.a ∈ st.ids) :
    runStep base useLoc st j =
      ({ st with skp := st.skp + 1, log := st.log ++ [LKind.skipById] },
        JOut.rejectedById) := by
  simp [runStep, h]

theorem runStep_notpre (base : String) (useLoc : Bool) (st : RState) (j : Job)
    (h : get_unique_photo_id j.a ∉ st.ids) :
    runStep base useLoc st j =
      (match process_photo j base (sectArgs j.sect).1 (sectArgs j.sect).2 useLoc
          st.ps with
        | (PPOut.ok isLive p, ps') =>
          ({ st with
              ps := ps'
              ids := st.ids ++ [get_unique_photo_id j.a]
              dl := st.dl + 1
              log := st.log ++ [LKind.process, LKind.success]
                ++ (if isLive then [LKind.liveInfo] else []) },
            JOut.committed p)
        | (PPOut.dup, ps') =>
          ({ st with
              ps := ps'
              errs := st.errs + 1
              log := st.log ++ [LKind.process, LKind.error] }, JOut.rejectedByKey)
        | (PPOut.exn, ps') =>
          ({ st with
              ps := ps'
              errs := st.errs + 1
              log := st.log ++ [LKind.process, LKind.error] }, JOut.failed)) := by
  simp only [runStep, h, if_false]
  rcases hpp : process_photo j base (sectArgs j.sect).1 (sectArgs j.sect).2 useLoc
    st.ps with ⟨out, ps'⟩
  cases out <;> simp [List.append_assoc]

theorem runStep_keys_mono (base : String) (useLoc : Bool) (st : RState) (j : Job)
    (k : DKey) (hk : k ∈ st.ps.keys) :
    k ∈ (runStep base useLoc st j).1.ps.keys := by
  by_cases h : get_unique_photo_id j.a ∈ st.ids
  · rw [runStep_pre base useLoc st j h]
    exact hk
  · have := process_photo_keys_mono j base (sectArgs j.sect).1 (sectArgs j.sect).2
      useLoc st.ps k hk
    rcases hpp : process_photo j base (sectArgs j.sect).1 (sectArgs j.sect).2
      useLoc st.ps with ⟨out, ps'⟩
    rw [runStep_notpre base useLoc st j h, hpp]
    rw [hpp] at this
    cases out <;> simpa using this

theorem runO_cons (base : String) (useLoc : Bool) (j : Job) (js : List Job)
    (st : RState) :
    runO base useLoc (j :: js) st =
      ((runO base useLoc js (runStep base useLoc st j).1).1,
        (runStep base useLoc st j).2
          :: (runO base useLoc js (runStep base useLoc st j).1).2) := rfl

theorem runO_append (base : String) (useLoc : Bool) (xs ys : List Job)
    (st : RState) :
    runO base useLoc (xs ++ ys) st =
      ((runO base useLoc ys (runO base useLoc xs st).1).1,
        (runO base useLoc xs st).2
          ++ (runO base useLoc ys (runO base useLoc xs st).1).2) := by
  induction xs generalizing st with
  | nil => simp [runO]
  | cons j js ih => simp [runO, ih]

theorem runO_keys_mono (base : String) (useLoc : Bool) (js : List Job)
    (st : RState) (k : DKey) (hk : k ∈ st.ps.keys) :
    k ∈ (runO base useLoc js st).1.ps.keys := by
  induction js generalizing st with
  | nil => exact hk
  | cons j t ih =>
    rw [runO_cons]
    exact ih _ (runStep_keys_mono base useLoc st j k hk)

theorem runO_length (base : String) (useLoc : Bool) (js : List Job)
    (st : RState) : (runO base useLoc js st).2.length = js.length := by
  induction js generalizing st with
  | nil => rfl
  | cons j t ih => rw [runO_cons]; simp [ih]

theorem process_photo_stats_sum (j : Job) (base ty : String)
    (album : Option String) (useLoc : Bool) (ps : PState) :
    sumStats (process_photo j base ty album useLoc ps).2.stats =
      sumStats ps.stats +
        (match (process_photo j base ty album useLoc ps).1 with
          | PPOut.ok _ _ => 1
          | _ => 0) := by
  by_cases hdl : j.downloadOk = true
  · by_cases hmem : dedupKey j.a ∈ ps.keys
    · rw [process_photo_dup j base ty album useLoc ps hdl hmem]
      simp
    · by_cases hc : j.commitOk = true
      · rw [process_photo_commit j base ty album useLoc ps hdl hmem hc]
        have hstats := (handle_live_photo_proj j
          (commitPath j base ty album useLoc ps)
          (commitName j base ty album useLoc ps)
          (preCommit j base ty album useLoc ps)).1
        show sumStats (bump (handle_live_photo j _ _ _).2.stats _) = _
        rw [sumStats_bump, hstats]
        rfl
      · rw [process_photo_commitfail j base ty album useLoc ps hdl hmem
          (bool_eq_false_of_ne_true hc)]
        simp
  · rw [process_photo_dlfail j base ty album useLoc ps
      (bool_eq_false_of_ne_true hdl)]
    simp

/-- Per step accounting: a committed job adds one to the stats leaf sum, one
SUCCESS log entry and one to the download counter; every other outcome adds
none of the three. -/
theorem runStep_account (base : String) (useLoc : Bool) (st : RState) (j : Job) :
    sumStats (runStep base useLoc st j).1.ps.stats
        = sumStats st.ps.stats
          + (if isCommitted (runStep base useLoc st j).2 then 1 else 0) ∧
    (runStep base useLoc st j).1.log.countP (fun k => k == LKind.success)
        = st.log.countP (fun k => k == LKind.success)
          + (if isCommitted (runStep base useLoc st j).2 then 1 else 0) ∧
    (runStep base useLoc st j).1.dl
        = st.dl + (if isCommitted (runStep base useLoc st j).2 then 1 else 0) := by
  by_cases h : get_unique_photo_id j.a ∈ st.ids
  · rw [runStep_pre base useLoc st j h]
    simp [isCommitted, List.countP_append, List.countP_cons]
  · have hstats := process_photo_stats_sum j base (sectArgs j.sect).1
      (sectArgs j.sect).2 useLoc st.ps
    rcases hpp : process_photo j base (sectArgs j.sect).1 (sectArgs j.sect).2
      useLoc st.ps with ⟨out, ps'⟩
    rw [runStep_notpre base useLoc st j h, hpp]
    rw [hpp] at hstats
    cases out with
    | ok isLive p =>
      refine ⟨by simpa using hstats, ?_, by simp [isCommitted]⟩
      cases isLive <;>
        simp [isCommitted, List.countP_append, List.countP_cons]
    | dup =>
      refine ⟨by simpa using hstats, ?_, by simp [isCommitted]⟩
      simp [isCommitted, List.countP_append, List.countP_cons]
    | exn =>
      refine ⟨by simpa using hstats, ?_, by simp [isCommitted]⟩
      simp [isCommitted, List.countP_append, List.countP_cons]

/-- Run accounting: over any job list the stats leaf sum, the SUCCESS entry
count and the downloaded counter each grow by the number of committed jobs. -/
theorem runO_account (base : String) (useLoc : Bool) (js : List Job)
    (st : RState) :
    sumStats (runO base useLoc js st).1.ps.stats
        = sumStats st.ps.stats
          + (runO base useLoc js st).2.countP isCommitted ∧
    (runO base useLoc js st).1.log.countP (fun k => k == LKind.success)
        = st.log.countP (fun k => k == LKind.success)
          + (runO base useLoc js st).2.countP isCommitted ∧
    (runO base useLoc js st).1.dl
        = st.dl + (runO base useLoc js st).2.countP isCommitted := by
  induction js generalizing st with
  | nil => simp [runO]
  | cons j t ih =>
    rw [runO_cons]
    obtain ⟨s1, s2, s3⟩ := runStep_account base useLoc st j
    obtain ⟨r1, r2, r3⟩ := ih (runStep base useLoc st j).1
    refine ⟨?_, ?_, ?_⟩
    · simp only [List.countP_cons]
      rw [r1, s1]
      by_cases hcp : isCommitted (runStep base useLoc st j).2 = true <;>
        simp [hcp] <;> omega
    · simp only [List.countP_cons]
      rw [r2, s2]
      by_cases hcp : isCommitted (runStep base useLoc st j).2 = true <;>
        simp [hcp] <;> omega
    · simp only [List.countP_cons]
      rw [r3, s3]
      by_cases hcp : isCommitted (runStep base useLoc st j).2 = true <;>
        simp [hcp] <;> omega

/-! ### Further helper lemmas -/

theorem fsLookup_fsWrite_self (fs : FS) (p : String) (e : Entry) :
    fsLookup (fsWrite fs p e) p = some e := by
  unfold fsWrite
  split
  · rename_i hex
    induction fs with
    | nil => simp [fsExists] at hex
    | cons kv t ih =>
      rw [List.map_cons]
      by_cases hkv : (kv.1 == p) = true
      · rw [if_pos hkv]
        simp [fsLookup]
      · rw [if_neg hkv]
        have ht : fsExists t p = true := by
          have hkv' : (kv.1 == p) = false := bool_eq_false_of_ne_true hkv
          simp only [fsExists, List.any_cons, hkv', Bool.false_or] at hex
          exact hex
        have := ih ht
        simpa [fsLookup, hkv] using this
  · simp [fsLookup]

theorem fsLookup_setMtime_self (fs : FS) (p : String) (d : Date) (e : Entry)
    (h : fsLookup fs p = some e) :
    fsLookup (setMtime fs p d) p = some ⟨e.bytes, some d⟩ := by
  induction fs with
  | nil => simp [fsLookup] at h
  | cons kv t ih =>
    unfold setMtime
    rw [List.map_cons]
    by_cases hkv : (kv.1 == p) = true
    · rw [if_pos hkv]
      simp only [fsLookup, hkv, List.find?_cons_of_pos, Option.map_some] at h
      injection h with h
      simp [fsLookup, hkv, ← h]
    · rw [if_neg hkv]
      have hkv' : ¬ ((fun kv : String × Entry => kv.1 == p) kv = true) := hkv
      unfold fsLookup at h
      rw [show List.find? (fun kv : String × Entry => kv.1 == p) (kv :: t)
            = List.find? (fun kv : String × Entry => kv.1 == p) t
          from List.find?_cons_of_neg t hkv'] at h
      have := ih h
      simpa [fsLookup, setMtime, hkv] using this

theorem natToString_injective : Function.Injective natToString := by
  intro a b h
  have := parseNat_natToString a
  rw [h, parseNat_natToString] at this
  omega

theorem dlCand_injective (fp : String) : Function.Injective (dlCand fp) := by
  intro m n h
  apply natToString_injective
  apply string_eq_of_data
  have hd := congrArg String.data h
  simp only [dlCand, string_data_append, List.append_assoc] at hd
  have h2 := List.append_cancel_left hd
  have h3 := List.append_cancel_left h2
  exact List.append_left_injective _ h3

/-- The index the downloader.py collision loop settles on (counting from 1). -/
def dlChooseIdx (fs : FS) (filepath : String) : Nat :=
  firstFreeIdx fs (dlCand filepath) 1 (fs.length + 1)

/-- The final path of the downloader.py commit: the original path when free,
else the first free unpadded suffix candidate. -/
def dlResolve (fs : FS) (filepath : String) : String :=
  if fsExists fs filepath then dlCand filepath (dlChooseIdx fs filepath)
  else filepath

theorem dlChooseIdx_spec (fs : FS) (fp : String) :
    fsExists fs (dlCand fp (dlChooseIdx fs fp)) = false ∧
    (∀ k, 1 ≤ k → k < dlChooseIdx fs fp → fsExists fs (dlCand fp k) = true) ∧
    1 ≤ dlChooseIdx fs fp ∧ dlChooseIdx fs fp ≤ fs.length + 1 := by
  have hinj : Function.Injective (fun n => dlCand fp (n + 1)) := by
    intro m n h
    have := dlCand_injective fp h
    omega
  rcases exists_free_cand fs (fun n => dlCand fp (n + 1)) hinj with ⟨n, hn, hfree⟩
  obtain ⟨h1, h2, h3, h4⟩ := firstFreeIdx_spec fs (dlCand fp) (fs.length + 1) 1
    ⟨n + 1, by omega, by omega, hfree⟩
  exact ⟨h1, fun k hk1 hk2 => h2 k hk1 hk2, by
    constructor
    · unfold dlChooseIdx; omega
    · unfold dlChooseIdx; omega⟩

theorem dlResolve_free (fs : FS) (fp : String) :
    fsExists fs (dlResolve fs fp) = false := by
  unfold dlResolve
  split
  · exact (dlChooseIdx_spec fs fp).1
  · rename_i h
    exact bool_eq_false_of_ne_true h

theorem noSlash_baseFilename {a : Asset} (hf : noSlash a.filename) :
    noSlash (baseFilename a) := by
  unfold baseFilename dateStrOf
  cases a.created with
  | none => exact noSlash_append (noSlash_append (by decide) noSlash_underscore) hf
  | some d =>
    exact noSlash_append (noSlash_append (noSlash_dateStr d) noSlash_underscore) hf

theorem noSlash_candName {base : String} (hb : noSlash base) (k : Nat) :
    noSlash (candName base k) := by
  cases k with
  | zero => exact hb
  | succ m =>
    show noSlash ((splitext base).1 ++ "_" ++ fmt3 (m + 1) ++ (splitext base).2)
    exact noSlash_append (noSlash_append (noSlash_append (noSlash_splitext₁ hb)
      noSlash_underscore) (noSlash_fmt3 _)) (noSlash_splitext₂ hb)

theorem process_photo_dup_inv (j : Job) (base ty : String)
    (album : Option String) (useLoc : Bool) (ps : PState)
    (h : (process_photo j base ty album useLoc ps).1 = PPOut.dup) :
    j.downloadOk = true ∧ dedupKey j.a ∈ ps.keys := by
  by_cases hdl : j.downloadOk = true
  · by_cases hmem : dedupKey j.a ∈ ps.keys
    · exact ⟨hdl, hmem⟩
    · by_cases hc : j.commitOk = true
      · rw [process_photo_commit j base ty album useLoc ps hdl hmem hc] at h
        exact absurd h (by simp)
      · rw [process_photo_commitfail j base ty album useLoc ps hdl hmem
          (bool_eq_false_of_ne_true hc)] at h
        exact absurd h (by simp)
  · rw [process_photo_dlfail j base ty album useLoc ps
      (bool_eq_false_of_ne_true hdl)] at h
    exact absurd h (by simp)

theorem runStep_committed_key (base : String) (useLoc : Bool) (st : RState)
    (j : Job) (h : isCommitted (runStep base useLoc st j).2 = true) :
    dedupKey j.a ∈ (runStep base useLoc st j).1.ps.keys := by
  by_cases hpre : get_unique_photo_id j.a ∈ st.ids
  · rw [runStep_pre base useLoc st j hpre] at h
    simp [isCommitted] at h
  · rcases hpp : process_photo j base (sectArgs j.sect).1 (sectArgs j.sect).2
      useLoc st.ps with ⟨out, ps'⟩
    rw [runStep_notpre base useLoc st j hpre, hpp] at h ⊢
    cases out with
    | ok isLive p =>
      have hkeys := process_photo_keys_of_ok j base (sectArgs j.sect).1
        (sectArgs j.sect).2 useLoc st.ps (b := isLive) (p := p) (by rw [hpp])
      rw [hpp] at hkeys
      simp only at hkeys ⊢
      rw [hkeys]
      exact List.mem_cons_self _ _
    | dup => simp [isCommitted] at h
    | exn => simp [isCommitted] at h

theorem process_photo_stats_eq_of_not_ok (j : Job) (base ty : String)
    (album : Option String) (useLoc : Bool) (ps : PState)
    (h : ∀ b p, (process_photo j base ty album useLoc ps).1 ≠ PPOut.ok b p) :
    (process_photo j base ty album useLoc ps).2.stats = ps.stats := by
  by_cases hdl : j.downloadOk = true
  · by_cases hmem : dedupKey j.a ∈ ps.keys
    · rw [process_photo_dup j base ty album useLoc ps hdl hmem]
    · by_cases hc : j.commitOk = true
      · exfalso
        refine h (handle_live_photo j (commitPath j base ty album useLoc ps)
          (commitName j base ty album useLoc ps)
          (preCommit j base ty album useLoc ps)).1
          (commitPath j base ty album useLoc ps) ?_
        rw [process_photo_commit j base ty album useLoc ps hdl hmem hc]
      · rw [process_photo_commitfail j base ty album useLoc ps hdl hmem
          (bool_eq_false_of_ne_true hc)]
  · rw [process_photo_dlfail j base ty album useLoc ps
      (bool_eq_false_of_ne_true hdl)]

/-- C5: at the end of any run started from the empty state, the sum over all
Stats leaves equals the number of jobs that reached the committed state,
which equals the number of SUCCESS log entries and the downloaded counter;
and any single step whose outcome is not committed leaves the stats record
exactly unchanged. -/
theorem c5_stats_log_consistency (base : String) (useLoc : Bool)
    (js : List Job) :
    sumStats (runO base useLoc js initR).1.ps.stats
        = (runO base useLoc js initR).2.countP isCommitted ∧
    sumStats (runO base useLoc js initR).1.ps.stats
        = (runO base useLoc js initR).1.log.countP (fun k => k == LKind.success) ∧
    (runO base useLoc js initR).1.dl
        = (runO base useLoc js initR).2.countP isCommitted ∧
    ∀ (st : RState) (j : Job),
      isCommitted (runStep base useLoc st j).2 = false →
        (runStep base useLoc st j).1.ps.stats = st.ps.stats := by
  obtain ⟨h1, h2, h3⟩ := runO_account base useLoc js initR
  refine ⟨?_, ?_, ?_, ?_⟩
  · simpa [initR, sumStats] using h1
  · have hz : sumStats initR.ps.stats = 0 := by simp [initR, sumStats]
    have hlz : (initR.log.countP (fun k => k == LKind.success)) = 0 := by
      simp [initR]
    rw [h1, h2, hz, hlz]
  · simpa [initR] using h3
  · intro st j hfalse
    by_cases hpre : get_unique_photo_id j.a ∈ st.ids
    · rw [runStep_pre base useLoc st j hpre]
    · rcases hpp : process_photo j base (sectArgs j.sect).1 (sectArgs j.sect).2
        useLoc st.ps with ⟨out, ps'⟩
      rw [runStep_notpre base useLoc st j hpre, hpp] at hfalse ⊢
      cases out with
      | ok isLive p => simp [isCommitted] at hfalse
      | dup =>
        have := process_photo_stats_eq_of_not_ok j base (sectArgs j.sect).1
          (sectArgs j.sect).2 useLoc st.ps (by intro b p hcontra; rw [hpp] at hcontra; exact absurd hcontra (by simp))
        rw [hpp] at this
        simpa using this
      | exn =>
        have := process_photo_stats_eq_of_not_ok j base (sectArgs j.sect).1
          (sectArgs j.sect).2 useLoc st.ps (by intro b p hcontra; rw [hpp] at hcontra; exact absurd hcontra (by simp))
        rw [hpp] at this
        simpa using this

/-- Witness for c5_stats_log_consistency at a concrete two job run. -/
theorem c5_stats_log_consistency_witness :
    sumStats (runO "root" false
        [⟨⟨none, "a.jpg", some ⟨2024, 3, 1, 10, 0, 0⟩, none, none, [1], [], []⟩,
          Sect.personal, true, true, true⟩] initR).1.ps.stats
      = (runO "root" false
        [⟨⟨none, "a.jpg", some ⟨2024, 3, 1, 10, 0, 0⟩, none, none, [1], [], []⟩,
          Sect.personal, true, true, true⟩] initR).2.countP isCommitted := by
  exact (c5_stats_log_consistency "root" false
    [⟨⟨none, "a.jpg", some ⟨2024, 3, 1, 10, 0, 0⟩, none, none, [1], [], []⟩,
      Sect.personal, true, true, true⟩]).1

/-- C7: a shared album asset is always planned into
base/Shared_Albums/albumName regardless of the organization mode, the
committed path is directly inside that directory (no type, year or location
subdivision below the album name), and a successful process_photo call
commits exactly at that path. -/
theorem c7_shared_album_layout (j : Job) (base name : String) (useLoc : Bool)
    (ps : PState) (hfn : noSlash j.a.filename) :
    planDir base "Shared_Albums" (some name) useLoc j.a
        = base ++ "/Shared_Albums/" ++ name ∧
    (∃ fname, noSlash fname ∧
      commitPath j base "Shared_Albums" (some name) useLoc ps
        = base ++ "/Shared_Albums/" ++ name ++ "/" ++ fname ∧
      dirname (commitPath j base "Shared_Albums" (some name) useLoc ps)
        = base ++ "/Shared_Albums/" ++ name) ∧
    (j.downloadOk = true → dedupKey j.a ∉ ps.keys → j.commitOk = true →
      ∃ b, (process_photo j base "Shared_Albums" (some name) useLoc ps).1
        = PPOut.ok b (commitPath j base "Shared_Albums" (some name) useLoc ps)) := by
  have hfname : noSlash (commitName j base "Shared_Albums" (some name) useLoc ps) :=
    noSlash_candName (noSlash_baseFilename hfn) _
  refine ⟨rfl, ⟨commitName j base "Shared_Albums" (some name) useLoc ps,
    hfname, rfl, ?_⟩, ?_⟩
  · show dirname ((base ++ "/Shared_Albums/" ++ name) ++ "/"
        ++ commitName j base "Shared_Albums" (some name) useLoc ps)
      = base ++ "/Shared_Albums/" ++ name
    exact dirname_join hfname
  · intro hdl hk hc
    exact ⟨_, by rw [process_photo_commit j base "Shared_Albums" (some name)
      useLoc ps hdl hk hc]⟩

/-- Witness for c7_shared_album_layout at a concrete album job. -/
theorem c7_shared_album_layout_witness :
    planDir "root" "Shared_Albums" (some "Trip") false
        ⟨none, "a.jpg", some ⟨2024, 3, 1, 10, 0, 0⟩, none, none, [1], [], []⟩
      = "root" ++ "/Shared_Albums/" ++ "Trip" :=
  (c7_shared_album_layout
    ⟨⟨none, "a.jpg", some ⟨2024, 3, 1, 10, 0, 0⟩, none, none, [1], [], []⟩,
      Sect.sharedAlbum "Trip", true, true, true⟩
    "root" "Trip" false initR.ps (by decide)).1

/-- C9: a dedup key admitted by an asset whose commit then fails stays in the
index for the rest of the run, so a later job carrying the same key is
rejected as a duplicate rather than retried. -/
theorem c9_failed_commit_key_consumed (base : String) (useLoc : Bool)
    (st : RState) (j1 j2 : Job) (mid : List Job)
    (hpre : get_unique_photo_id j1.a ∉ st.ids)
    (hdl1 : j1.downloadOk = true)
    (hfresh : dedupKey j1.a ∉ st.ps.keys)
    (hcf : j1.commitOk = false)
    (hkey : dedupKey j2.a = dedupKey j1.a)
    (hdl2 : j2.downloadOk = true) :
    (runStep base useLoc st j1).2 = JOut.failed ∧
    dedupKey j1.a ∈ (runStep base useLoc st j1).1.ps.keys ∧
    isRejected (runStep base useLoc
        (runO base useLoc mid (runStep base useLoc st j1).1).1 j2).2 = true := by
  have hpp := process_photo_commitfail j1 base (sectArgs j1.sect).1
    (sectArgs j1.sect).2 useLoc st.ps hdl1 hfresh hcf
  have hfail : (runStep base useLoc st j1).2 = JOut.failed := by
    rw [runStep_notpre base useLoc st j1 hpre, hpp]
  have hmem1 : dedupKey j1.a ∈ (runStep base useLoc st j1).1.ps.keys := by
    rw [runStep_notpre base useLoc st j1 hpre, hpp]
    exact List.mem_cons_self _ _
  refine ⟨hfail, hmem1, ?_⟩
  have hmem2 : dedupKey j2.a ∈
      (runO base useLoc mid (runStep base useLoc st j1).1).1.ps.keys := by
    rw [hkey]
    exact runO_keys_mono base useLoc mid _ _ hmem1
  set st2 := (runO base useLoc mid (runStep base useLoc st j1).1).1 with hst2
  by_cases hpre2 : get_unique_photo_id j2.a ∈ st2.ids
  · rw [runStep_pre base useLoc st2 j2 hpre2]
    rfl
  · rw [runStep_notpre base useLoc st2 j2 hpre2]
    rw [process_photo_dup j2 base (sectArgs j2.sect).1 (sectArgs j2.sect).2
      useLoc st2.ps hdl2 hmem2]
    rfl

/-- Witness for c9_failed_commit_key_consumed at a concrete failing job. -/
theorem c9_failed_commit_key_consumed_witness :
    (runStep "root" false initR
        ⟨⟨none, "a.jpg", some ⟨2024, 3, 1, 10, 0, 0⟩, none, none, [1], [], []⟩,
          Sect.personal, true, false, true⟩).2 = JOut.failed :=
  (c9_failed_commit_key_consumed "root" false initR
    ⟨⟨none, "a.jpg", some ⟨2024, 3, 1, 10, 0, 0⟩, none, none, [1], [], []⟩,
      Sect.personal, true, false, true⟩
    ⟨⟨none, "a.jpg", some ⟨2024, 3, 1, 10, 0, 0⟩, none, none, [1], [], []⟩,
      Sect.sharedWithMe, true, true, true⟩
    [] (by decide) (by decide) (by decide) (by decide) (by decide) (by decide)).1

/-- C10: a job rejected by the content dedup key is side effect free on the
committed output: the filesystem, the stats, the staged temporary files, the
dedup index, the downloaded counter and the processed id set are unchanged;
only the destination directories have been created and the log and error
counter advance. -/
theorem c10_duplicate_frame (base : String) (useLoc : Bool) (st : RState)
    (j : Job) (hout : (runStep base useLoc st j).2 = JOut.rejectedByKey) :
    (runStep base useLoc st j).1.ps.fs = st.ps.fs ∧
    (runStep base useLoc st j).1.ps.stats = st.ps.stats ∧
    (runStep base useLoc st j).1.ps.tmps = st.ps.tmps ∧
    (runStep base useLoc st j).1.ps.keys = st.ps.keys ∧
    (runStep base useLoc st j).1.dl = st.dl ∧
    (runStep base useLoc st j).1.ids = st.ids ∧
    (runStep base useLoc st j).1.ps.dirs
        = st.ps.dirs ++ mkdirList base (sectArgs j.sect).1 (sectArgs j.sect).2
            useLoc j.a := by
  by_cases hpre : get_unique_photo_id j.a ∈ st.ids
  · rw [runStep_pre base useLoc st j hpre] at hout
    exact absurd hout (by simp)
  · rcases hpp : process_photo j base (sectArgs j.sect).1 (sectArgs j.sect).2
      useLoc st.ps with ⟨out, ps'⟩
    rw [runStep_notpre base useLoc st j hpre, hpp] at hout ⊢
    cases out with
    | ok isLive p => exact absurd hout (by simp)
    | exn => exact absurd hout (by simp)
    | dup =>
      obtain ⟨hdl, hmem⟩ := process_photo_dup_inv j base (sectArgs j.sect).1
        (sectArgs j.sect).2 useLoc st.ps (by rw [hpp])
      rw [process_photo_dup j base (sectArgs j.sect).1 (sectArgs j.sect).2
        useLoc st.ps hdl hmem] at hpp
      injection hpp with hout2 hps
      rw [← hps]
      refine ⟨rfl, rfl, rfl, rfl, rfl, rfl, rfl⟩

/-- Witness for c10_duplicate_frame at a concrete duplicate rejection. -/
theorem c10_duplicate_frame_witness :
    (runStep "root" false
        (runO "root" false
          [⟨⟨none, "a.jpg", some ⟨2024, 3, 1, 10, 0, 0⟩, none, none, [5], [], []⟩,
            Sect.personal, true, true, true⟩] initR).1
        ⟨⟨none, "b.jpg", some ⟨2024, 3, 1, 10, 0, 0⟩, none, none, [5], [], []⟩,
          Sect.personal, true, true, true⟩).1.ps.fs
      = (runO "root" false
          [⟨⟨none, "a.jpg", some ⟨2024, 3, 1, 10, 0, 0⟩, none, none, [5], [], []⟩,
            Sect.personal, true, true, true⟩] initR).1.ps.fs :=
  (c10_duplicate_frame "root" false
    (runO "root" false
      [⟨⟨none, "a.jpg", some ⟨2024, 3, 1, 10, 0, 0⟩, none, none, [5], [], []⟩,
        Sect.personal, true, true, true⟩] initR).1
    ⟨⟨none, "b.jpg", some ⟨2024, 3, 1, 10, 0, 0⟩, none, none, [5], [], []⟩,
      Sect.personal, true, true, true⟩ (by decide)).1

/-! ### Concrete assets used by the counterexamples -/

/-- A shared creation timestamp for the counterexample assets. -/
def cxDate : Date := ⟨2024, 3, 1, 10, 0, 0⟩

/-- No id asset named a.jpg with content [5]. -/
def cxNoIdA : Asset := ⟨none, "a.jpg", some cxDate, none, none, [5], [], []⟩

/-- No id asset named b.jpg with the same timestamp and content as cxNoIdA. -/
def cxNoIdB : Asset := ⟨none, "b.jpg", some cxDate, none, none, [5], [], []⟩

/-- A fault free job for an asset in a given enumeration source. -/
def cxJob (a : Asset) (s : Sect) : Job := ⟨a, s, true, true, true⟩

/-- C2 counterexample: in the two job run where the second asset is rejected
by the content dedup key, the rejected duplicate gets an ERROR outcome entry
(level ERROR), not a SKIP entry: the log of the run holds no skipById entry
at all, because process_photo reports the duplicate with the same bare False
as a failure. -/
theorem c2_counterexample :
    (runO "root" false [cxJob cxNoIdA Sect.personal, cxJob cxNoIdB Sect.personal]
        initR).2.getD 1 JOut.failed = JOut.rejectedByKey ∧
    (runO "root" false [cxJob cxNoIdA Sect.personal, cxJob cxNoIdB Sect.personal]
        initR).1.log
      = [LKind.process, LKind.success, LKind.process, LKind.error] ∧
    levelOf LKind.error = "ERROR" ∧
    LKind.skipById ∉ (runO "root" false
        [cxJob cxNoIdA Sect.personal, cxJob cxNoIdB Sect.personal] initR).1.log := by
  decide

/-- C2 amended: every processed job appends exactly one outcome entry to the
log: SUCCESS when committed, SKIP (level INFO) when rejected by the uid
precheck, and ERROR both when the asset fails and when it is rejected by the
content dedup key (the code cannot tell those two apart); no outcome aborts
the run, every job of the list yields an outcome. -/
theorem c2_amended_outcome_entries (base : String) (useLoc : Bool)
    (st : RState) (j : Job) :
    (∃ d, (runStep base useLoc st j).1.log = st.log ++ d ∧
      d.countP isOutcome = 1 ∧
      d.filter isOutcome = [outcomeKind (runStep base useLoc st j).2]) ∧
    (∀ (js : List Job) (s : RState), (runO base useLoc js s).2.length = js.length) := by
  constructor
  · by_cases hpre : get_unique_photo_id j.a ∈ st.ids
    · rw [runStep_pre base useLoc st j hpre]
      exact ⟨[LKind.skipById], rfl, by decide, rfl⟩
    · rcases hpp : process_photo j base (sectArgs j.sect).1 (sectArgs j.sect).2
        useLoc st.ps with ⟨out, ps'⟩
      rw [runStep_notpre base useLoc st j hpre, hpp]
      cases out with
      | ok isLive p =>
        cases isLive with
        | false =>
          refine ⟨[LKind.process, LKind.success], ?_, by decide, rfl⟩
          simp [List.append_assoc]
        | true =>
          refine ⟨[LKind.process, LKind.success, LKind.liveInfo], ?_, by decide,
            rfl⟩
          simp [List.append_assoc]
      | dup =>
        exact ⟨[LKind.process, LKind.error], by simp [List.append_assoc],
          by decide, rfl⟩
      | exn =>
        exact ⟨[LKind.process, LKind.error], by simp [List.append_assoc],
          by decide, rfl⟩
  · exact fun js s => runO_length base useLoc js s

/-- C3 counterexample: two distinct no id assets with equal timestamp,
content hash and size but different filenames have EQUAL dedup keys (the
identity slot holds None, not the date_filename fallback), and only the
first is committed: the second is rejected by the content key. -/
theorem c3_counterexample :
    cxNoIdA.id = none ∧ cxNoIdB.id = none ∧
    cxNoIdA.filename ≠ cxNoIdB.filename ∧
    dedupKey cxNoIdA = dedupKey cxNoIdB ∧
    (runO "root" false [cxJob cxNoIdA Sect.personal, cxJob cxNoIdB Sect.personal]
        initR).2
      = [JOut.committed "root/Personal/JPEG/2024/20240301_100000_a.jpg",
         JOut.rejectedByKey] := by
  decide

/-- C3 amended: when id is absent the identity component of the content
dedup key is None (the date_filename fallback string is used only by
get_unique_photo_id for the run level uid precheck), so two no id assets
with equal timestamp, content and size but different filenames share one
dedup key, pass the uid precheck separately, and only the first is
committed while the second is rejected by the content key. -/
theorem c3_amended_fallback_identity (a b : Asset)
    (ha : a.id = none) (hb : b.id = none)
    (hd : a.created = b.created) (hcont : a.content = b.content)
    (hfn : a.filename ≠ b.filename) :
    (dedupKey a).1 = none ∧
    get_unique_photo_id a = dateStrOf a ++ "_" ++ a.filename ∧
    dedupKey a = dedupKey b ∧
    get_unique_photo_id a ≠ get_unique_photo_id b ∧
    ∀ (s1 s2 : Sect) (base : String) (useLoc : Bool),
      (runO base useLoc [⟨a, s1, true, true, true⟩, ⟨b, s2, true, true, true⟩]
          initR).2
        = [JOut.committed (commitPath ⟨a, s1, true, true, true⟩ base
              (sectArgs s1).1 (sectArgs s1).2 useLoc initR.ps),
           JOut.rejectedByKey] := by
  have hds : dateStrOf a = dateStrOf b := by
    unfold dateStrOf
    rw [hd]
  have huid_a : get_unique_photo_id a = dateStrOf a ++ "_" ++ a.filename := by
    unfold get_unique_photo_id
    rw [ha]
  have huid_b : get_unique_photo_id b = dateStrOf b ++ "_" ++ b.filename := by
    unfold get_unique_photo_id
    rw [hb]
  have hkeyeq : dedupKey a = dedupKey b := by
    unfold dedupKey
    rw [ha, hb, hds, hcont]
  have hne : get_unique_photo_id a ≠ get_unique_photo_id b := by
    rw [huid_a, huid_b, ← hds]
    intro hcontra
    apply hfn
    have hdata := congrArg String.data hcontra
    rw [string_data_append, string_data_append, string_data_append,
      string_data_append, List.append_assoc, List.append_assoc] at hdata
    have h2 := List.append_cancel_left hdata
    have h3 := List.append_cancel_left h2
    exact string_eq_of_data h3
  refine ⟨by rw [dedupKey, ha], huid_a, hkeyeq, hne, ?_⟩
  intro s1 s2 base useLoc
  set jA : Job := ⟨a, s1, true, true, true⟩ with hjA
  set jB : Job := ⟨b, s2, true, true, true⟩ with hjB
  have hpre1 : get_unique_photo_id jA.a ∉ initR.ids := by
    simp [initR, hjA]
  have hfresh1 : dedupKey jA.a ∉ initR.ps.keys := by
    simp [initR, hjA]
  have hcommit := process_photo_commit jA base (sectArgs s1).1 (sectArgs s1).2
    useLoc initR.ps (by rw [hjA]) hfresh1 (by rw [hjA])
  have hsect : sectArgs jA.sect = sectArgs s1 := by rw [hjA]
  have hstep1o : (runStep base useLoc initR jA).2
      = JOut.committed (commitPath jA base (sectArgs s1).1 (sectArgs s1).2
          useLoc initR.ps) := by
    rw [runStep_notpre base useLoc initR jA hpre1, hsect, hcommit]
  have hstep1ids : (runStep base useLoc initR jA).1.ids
      = initR.ids ++ [get_unique_photo_id jA.a] := by
    rw [runStep_notpre base useLoc initR jA hpre1, hsect, hcommit]
  have hstep1keys : dedupKey jA.a ∈ (runStep base useLoc initR jA).1.ps.keys := by
    apply runStep_committed_key
    rw [hstep1o]
    rfl
  set st1 := (runStep base useLoc initR jA).1 with hst1
  have hpre2 : get_unique_photo_id jB.a ∉ st1.ids := by
    rw [hst1, hstep1ids]
    simp [initR, hjA, hjB]
    intro hcontra
    exact hne hcontra.symm
  have hmem2 : dedupKey jB.a ∈ st1.ps.keys := by
    rw [hjB]
    show dedupKey b ∈ st1.ps.keys
    rw [← hkeyeq]
    exact hstep1keys
  have hstep2o : (runStep base useLoc st1 jB).2 = JOut.rejectedByKey := by
    rw [runStep_notpre base useLoc st1 jB hpre2]
    rw [process_photo_dup jB base (sectArgs jB.sect).1 (sectArgs jB.sect).2
      useLoc st1.ps (by rw [hjB]) hmem2]
  rw [runO_cons, runO_cons]
  show (runStep base useLoc initR jA).2
      :: (runStep base useLoc st1 jB).2 :: [] = _
  rw [hstep1o, hstep2o]

/-- First asset of the C1 counterexample run: no id, content [1]. -/
def cxFirst : Asset := ⟨none, "a.jpg", some cxDate, none, none, [1], [], []⟩

/-- The asset occurring twice in the C1 counterexample run: same uid
fallback as cxFirst (same date and filename) but different content. -/
def cxDupAsset : Asset := ⟨none, "a.jpg", some cxDate, none, none, [2], [], []⟩

/-- C1 counterexample: the second and third jobs carry assets with equal
dedup keys and the second is processed before the third, yet NEITHER is
committed: both are rejected by the uid precheck because an earlier asset
with the same date_filename uid but different content was committed first.
So the claim that exactly one of the two equal key assets is committed fails. -/
theorem c1_counterexample :
    dedupKey (cxJob cxDupAsset Sect.sharedWithMe).a
        = dedupKey (cxJob cxDupAsset (Sect.sharedAlbum "Album1")).a ∧
    (runO "root" false
        [cxJob cxFirst Sect.personal, cxJob cxDupAsset Sect.sharedWithMe,
         cxJob cxDupAsset (Sect.sharedAlbum "Album1")] initR).2
      = [JOut.committed "root/Personal/JPEG/2024/20240301_100000_a.jpg",
         JOut.rejectedById, JOut.rejectedById] ∧
    isCommitted ((runO "root" false
        [cxJob cxFirst Sect.personal, cxJob cxDupAsset Sect.sharedWithMe,
         cxJob cxDupAsset (Sect.sharedAlbum "Album1")] initR).2.getD 1 JOut.failed)
      = false ∧
    isCommitted ((runO "root" false
        [cxJob cxFirst Sect.personal, cxJob cxDupAsset Sect.sharedWithMe,
         cxJob cxDupAsset (Sect.sharedAlbum "Album1")] initR).2.getD 2 JOut.failed)
      = false := by
  decide

/-- C1 amended: for two jobs with equal dedup keys, at most one is ever
committed (the later one sees the admitted key, across any interleaving of
sections since the index is shared and only grows); the later one is
actually rejected as a duplicate whenever its download succeeds; and the
earlier one is committed whenever it starts from a state with no colliding
uid or key and its download and commit succeed. -/
theorem c1_amended_dedup (base : String) (useLoc : Bool) (st : RState)
    (jA jB : Job) (mid : List Job)
    (hkey : dedupKey jB.a = dedupKey jA.a) :
    (isCommitted (runStep base useLoc st jA).2 = true →
      isCommitted (runStep base useLoc
        (runO base useLoc mid (runStep base useLoc st jA).1).1 jB).2 = false) ∧
    (isCommitted (runStep base useLoc st jA).2 = true → jB.downloadOk = true →
      isRejected (runStep base useLoc
        (runO base useLoc mid (runStep base useLoc st jA).1).1 jB).2 = true) ∧
    (get_unique_photo_id jA.a ∉ st.ids → dedupKey jA.a ∉ st.ps.keys →
      jA.downloadOk = true → jA.commitOk = true →
      isCommitted (runStep base useLoc st jA).2 = true) := by
  have hBmem : isCommitted (runStep base useLoc st jA).2 = true →
      dedupKey jB.a
        ∈ (runO base useLoc mid (runStep base useLoc st jA).1).1.ps.keys := by
    intro hcom
    rw [hkey]
    exact runO_keys_mono base useLoc mid _ _
      (runStep_committed_key base useLoc st jA hcom)
  refine ⟨?_, ?_, ?_⟩
  · intro hcom
    have hmem := hBmem hcom
    by_cases hpre2 : get_unique_photo_id jB.a
        ∈ (runO base useLoc mid (runStep base useLoc st jA).1).1.ids
    · rw [runStep_pre base useLoc _ jB hpre2]
      rfl
    · by_cases hdl2 : jB.downloadOk = true
      · rw [runStep_notpre base useLoc _ jB hpre2,
          process_photo_dup jB base (sectArgs jB.sect).1 (sectArgs jB.sect).2
            useLoc _ hdl2 hmem]
        rfl
      · rw [runStep_notpre base useLoc _ jB hpre2,
          process_photo_dlfail jB base (sectArgs jB.sect).1 (sectArgs jB.sect).2
            useLoc _ (bool_eq_false_of_ne_true hdl2)]
        rfl
  · intro hcom hdl2
    have hmem := hBmem hcom
    by_cases hpre2 : get_unique_photo_id jB.a
        ∈ (runO base useLoc mid (runStep base useLoc st jA).1).1.ids
    · rw [runStep_pre base useLoc _ jB hpre2]
      rfl
    · rw [runStep_notpre base useLoc _ jB hpre2,
        process_photo_dup jB base (sectArgs jB.sect).1 (sectArgs jB.sect).2
          useLoc _ hdl2 hmem]
      rfl
  · intro hpre hfresh hdl hc
    rw [runStep_notpre base useLoc st jA hpre,
      process_photo_commit jA base (sectArgs jA.sect).1 (sectArgs jA.sect).2
        useLoc st.ps hdl hfresh hc]
    rfl

/-- Witness for c1_amended_dedup at a concrete pair of equal key jobs. -/
theorem c1_amended_dedup_witness :
    isCommitted (runStep "root" false initR (cxJob cxFirst Sect.personal)).2
      = true :=
  (c1_amended_dedup "root" false initR (cxJob cxFirst Sect.personal)
    (cxJob cxFirst Sect.sharedWithMe) [] rfl).2.2
    (by decide) (by decide) rfl rfl

/-- Witness for c3_amended_fallback_identity at the concrete no id assets. -/
theorem c3_amended_fallback_identity_witness :
    dedupKey cxNoIdA = dedupKey cxNoIdB :=
  (c3_amended_fallback_identity cxNoIdA cxNoIdB rfl rfl rfl rfl
    (by decide)).2.2.1

/-- A one file filesystem used by the C4 counterexample. -/
def cxFS : FS := [("d/f.jpg", ⟨[9], none⟩)]

/-- C4 counterexample: the downloader.py committer (_process_single_photo)
resolves a collision on d/f.jpg to d/f_1.jpg, an UNPADDED suffix, not the
zero padded d/f_001.jpg the claim asserts (which is what the temp_solution
collision loop, modelled by cand, would produce). -/
theorem c4_counterexample :
    fsExists cxFS "d/f.jpg" = true ∧
    dlResolve cxFS "d/f.jpg" = "d/f_1.jpg" ∧
    dlResolve cxFS "d/f.jpg" ≠ "d/f_001.jpg" ∧
    cand "d" "f.jpg" 1 = "d/f_001.jpg" := by
  decide

/-- C4 amended: both collision loops terminate on the first free candidate,
examining exactly one occupied candidate per prior collision, and the commit
at the chosen path lands the staged bytes without touching any other path;
the temp_solution.py loop inserts a zero padded suffix (_001, _002, ...)
before the extension, while the downloader.py loop inserts an unpadded
suffix (_1, _2, ...). -/
theorem c4_amended_collision (fs : FS) (dir base filepath : String) (e : Entry) :
    fsExists fs (cand dir base (chooseIdx fs dir base)) = false ∧
    (∀ k, k < chooseIdx fs dir base → fsExists fs (cand dir base k) = true) ∧
    chooseIdx fs dir base ≤ fs.length ∧
    (∀ k, 0 < k → candName base k
        = (splitext base).1 ++ "_" ++ fmt3 k ++ (splitext base).2) ∧
    fsLookup (fsWrite fs (cand dir base (chooseIdx fs dir base)) e)
        (cand dir base (chooseIdx fs dir base)) = some e ∧
    (∀ q, q ≠ cand dir base (chooseIdx fs dir base) →
      fsLookup (fsWrite fs (cand dir base (chooseIdx fs dir base)) e) q
        = fsLookup fs q) ∧
    fsExists fs (dlResolve fs filepath) = false ∧
    (∀ k, 1 ≤ k → k < dlChooseIdx fs filepath →
      fsExists fs (dlCand filepath k) = true) ∧
    dlChooseIdx fs filepath ≤ fs.length + 1 ∧
    (∀ k, dlCand filepath k
        = (splitext filepath).1 ++ "_" ++ natToString k ++ (splitext filepath).2) := by
  obtain ⟨h1, h2, h3⟩ := chooseIdx_spec fs dir base
  obtain ⟨d1, d2, d3, d4⟩ := dlChooseIdx_spec fs filepath
  refine ⟨h1, h2, h3, ?_, fsLookup_write_self fs _ e h1, ?_,
    dlResolve_free fs filepath, d2, d4, fun k => rfl⟩
  · intro k hk
    cases k with
    | zero => omega
    | succ m => rfl
  · intro q hq
    exact fsLookup_write_other fs _ q e h1 hq

/-- Witness for c4_amended_collision at the concrete one collision store. -/
theorem c4_amended_collision_witness :
    candName "f.jpg" 1
      = (splitext "f.jpg").1 ++ "_" ++ fmt3 1 ++ (splitext "f.jpg").2 :=
  (c4_amended_collision cxFS "d" "f.jpg" "d/f.jpg" ⟨[1], none⟩).2.2.2.1 1
    (by decide)

theorem handle_live_photo_video (j : Job) (bp f : String) (ps : PState)
    (hvar : hasVideoVariant j.a = true) (hvo : j.videoOk = true) :
    (handle_live_photo j bp f ps).1 = true ∧
    fsLookup (handle_live_photo j bp f ps).2.fs
        (dirname bp ++ "/Videos" ++ "/" ++ ((splitext f).1 ++ ".mov"))
      = some ⟨j.a.videoContent, j.a.created⟩ := by
  cases hcr : j.a.created with
  | none =>
    constructor
    · simp [handle_live_photo, hvar, hvo]
    · simp only [handle_live_photo, hvar, if_true, hvo, hcr]
      exact fsLookup_fsWrite_self _ _ _
  | some d =>
    constructor
    · simp [handle_live_photo, hvar, hvo]
    · simp only [handle_live_photo, hvar, if_true, hvo, hcr]
      exact fsLookup_setMtime_self _ _ d _ (fsLookup_fsWrite_self _ _ _)

theorem handle_live_photo_videofail (j : Job) (bp f : String) (ps : PState)
    (hvo : j.videoOk = false) :
    (handle_live_photo j bp f ps).1 = false ∧
    (handle_live_photo j bp f ps).2.fs = ps.fs ∧
    (handle_live_photo j bp f ps).2.stats = ps.stats := by
  unfold handle_live_photo
  split
  · rw [hvo]
    simp
  · simp

/-- C6: for a committed asset with a video variant, the companion is written
at the Videos child of the directory holding the committed original, named
as the committed basename without extension plus .mov, with the original
asset timestamp propagated onto it; a video fetch failure is non fatal: the
original is still committed (with the live flag off) and still bumps its
stats leaf by one. -/
theorem c6_live_photo_companion (j : Job) (base ty : String)
    (album : Option String) (useLoc : Bool) (ps : PState)
    (hdl : j.downloadOk = true) (hk : dedupKey j.a ∉ ps.keys)
    (hc : j.commitOk = true) (hvar : hasVideoVariant j.a = true) :
    (j.videoOk = true →
      (process_photo j base ty album useLoc ps).1
          = PPOut.ok true (commitPath j base ty album useLoc ps) ∧
      fsLookup (process_photo j base ty album useLoc ps).2.fs
          (dirname (commitPath j base ty album useLoc ps) ++ "/Videos" ++ "/"
            ++ ((splitext (commitName j base ty album useLoc ps)).1 ++ ".mov"))
        = some ⟨j.a.videoContent, j.a.created⟩) ∧
    (j.videoOk = false →
      (process_photo j base ty album useLoc ps).1
          = PPOut.ok false (commitPath j base ty album useLoc ps) ∧
      sumStats (process_photo j base ty album useLoc ps).2.stats
          = sumStats ps.stats + 1) ∧
    (noSlash j.a.filename →
      dirname (commitPath j base ty album useLoc ps)
        = planDir base ty album useLoc j.a) := by
  have hcommit := process_photo_commit j base ty album useLoc ps hdl hk hc
  refine ⟨?_, ?_, ?_⟩
  · intro hvo
    obtain ⟨hv1, hv2⟩ := handle_live_photo_video j
      (commitPath j base ty album useLoc ps)
      (commitName j base ty album useLoc ps)
      (preCommit j base ty album useLoc ps) hvar hvo
    rw [hcommit]
    exact ⟨by rw [hv1], hv2⟩
  · intro hvo
    obtain ⟨hf1, _, hf3⟩ := handle_live_photo_videofail j
      (commitPath j base ty album useLoc ps)
      (commitName j base ty album useLoc ps)
      (preCommit j base ty album useLoc ps) hvo
    rw [hcommit]
    refine ⟨by rw [hf1], ?_⟩
    show sumStats (bump (handle_live_photo j _ _ _).2.stats _) = _
    rw [sumStats_bump, hf3]
    rfl
  · intro hfn
    show dirname (planDir base ty album useLoc j.a ++ "/"
        ++ commitName j base ty album useLoc ps) = _
    exact dirname_join (noSlash_candName (noSlash_baseFilename hfn) _)

/-- Witness for c6_live_photo_companion at a concrete live photo job. -/
theorem c6_live_photo_companion_witness :
    (process_photo
        ⟨⟨none, "a.jpg", some cxDate, none, none, [1], [some "video"], [7]⟩,
          Sect.personal, true, true, true⟩
        "root" "Personal" none false initR.ps).1
      = PPOut.ok true (commitPath
        ⟨⟨none, "a.jpg", some cxDate, none, none, [1], [some "video"], [7]⟩,
          Sect.personal, true, true, true⟩
        "root" "Personal" none false initR.ps) :=
  ((c6_live_photo_companion
    ⟨⟨none, "a.jpg", some cxDate, none, none, [1], [some "video"], [7]⟩,
      Sect.personal, true, true, true⟩
    "root" "Personal" none false initR.ps
    rfl (by decide) rfl (by decide)).1 rfl).1

/-- Asset whose location dictionary has latitude 0 and longitude 10: the
coordinates are present, but the Python or treats the zero as missing. -/
def cxZeroLatAsset : Asset :=
  ⟨none, "z.jpg", some cxDate,
    some (PyLoc.dict ⟨some 0, none, some 10000000, none⟩ none), none, [1], [], []⟩

/-- C8 counterexample: an asset whose location dictionary carries
latitude 0.0 and longitude 10.0 has resolvable GPS coordinates, yet the code
returns Unknown_Location for it: the falsy coalescing or in the dictionary
branch treats the zero latitude as absent. The bucket the claim requires
would have been Lat0.0_Lon10.0. -/
theorem c8_counterexample :
    cxZeroLatAsset.location
        = some (PyLoc.dict ⟨some 0, none, some 10000000, none⟩ none) ∧
    latLonName 0 10000000 = "Lat0.0_Lon10.0" ∧
    get_location_name cxZeroLatAsset = "Unknown_Location" ∧
    "Unknown_Location" ≠ "Lat0.0_Lon10.0" := by
  decide

/-- C8 amended: coordinates resolved by the code produce the bucket
Lat{lat}_Lon{lon} with both coordinates rounded half to even to two decimal
places (tuple coordinates are taken as is, dictionary coordinates only
survive the falsy coalescing or), an asset with no location source at all
gets Unknown_Location, and the scenario pair (40.7128, -74.0060) yields
Lat40.71_Lon-74.01. -/
theorem c8_amended_location_buckets :
    (∀ (a : Asset) (la lo : Micro),
      a.location = some (PyLoc.pair (some la) (some lo)) →
        get_location_name a = latLonName la lo) ∧
    (∀ (a : Asset) (flat : LocDict) (nested : Option LocDict) (la lo : Micro),
      a.location = some (PyLoc.dict flat nested) →
      pyOr flat.latitude flat.lat = some la →
      pyOr flat.longitude flat.lon = some lo →
        get_location_name a = latLonName la lo) ∧
    (∀ a : Asset, a.location = none → a.locationEnc = none →
        get_location_name a = "Unknown_Location") ∧
    latLonName 40712800 (-74006000) = "Lat40.71_Lon-74.01" := by
  refine ⟨?_, ?_, ?_, by decide⟩
  · intro a la lo h
    simp only [get_location_name, h]
  · intro a flat nested la lo h h1 h2
    simp only [get_location_name, h, h1, h2]
  · intro a h h1
    simp only [get_location_name, locFromEnc, h, h1]

/-- Witness for c8_amended_location_buckets at the scenario coordinates. -/
theorem c8_amended_location_buckets_witness :
    get_location_name
        ⟨none, "s.jpg", some cxDate,
          some (PyLoc.pair (some 40712800) (some (-74006000))), none, [1], [], []⟩
      = latLonName 40712800 (-74006000) :=
  c8_amended_location_buckets.1
    ⟨none, "s.jpg", some cxDate,
      some (PyLoc.pair (some 40712800) (some (-74006000))), none, [1], [], []⟩
    40712800 (-74006000) rfl

end ICloud
